import Mathlib

/-!
Verification development for the ACC Docs Attribute Sync tool
(`WWP_Revit_BIM-Tools.extension/.../ACC Docs Attribute Sync.pushbutton/script.py`).

The Python source is shallowly embedded: pure helpers become Lean functions on
`String`/`List Char`, the COM/HTTP layers become explicit oracles
(`String → Json`, `String → Except String _`), and each theorem below states a
property of the embedded code.

Conventions:
* Python strings are Lean `String`s; per-character work happens on `String.data`.
* A Python value that may be `None` is an `Option`.
* Grid indices are 0-based (the COM `Value2` array bounds `rs..re`, `cs..ce`
  become `0..nrows-1`, `0..ncols-1`).
-/

/-- Code points Python's `str.strip` / `re` `\s` treat as whitespace
(Unicode whitespace).  Used by the embedded `_normalize_name`. -/
def PySpaceCp (n : Nat) : Prop :=
  (9 ≤ n ∧ n ≤ 13) ∨ (28 ≤ n ∧ n ≤ 31) ∨ n = 32 ∨ n = 133 ∨ n = 160 ∨ n = 5760 ∨
  (8192 ≤ n ∧ n ≤ 8202) ∨ n = 8232 ∨ n = 8233 ∨ n = 8239 ∨ n = 8287 ∨ n = 12288

instance (n : Nat) : Decidable (PySpaceCp n) := by unfold PySpaceCp; infer_instance

def isPySpace (c : Char) : Bool := decide (PySpaceCp c.toNat)

/-- Per-character embedding of the `.replace` chain in `ExcelReader._normalize_name`:
U+00A0 (NBSP) becomes a space; U+200E, U+200F, U+202A, U+202B, U+202C are removed;
U+2013, U+2014, U+2212 become `-`; everything else is kept. -/
def cleanChar (c : Char) : List Char :=
  if c.toNat = 160 then [' ']
  else if c.toNat = 8206 ∨ c.toNat = 8207 ∨ c.toNat = 8234 ∨ c.toNat = 8235 ∨ c.toNat = 8236 then []
  else if c.toNat = 8211 ∨ c.toNat = 8212 ∨ c.toNat = 8722 then ['-']
  else [c]

/-- The whole `.replace` chain of `_normalize_name`, applied character-wise
(the replaced characters and their replacements do not overlap, so the
sequential `str.replace` calls equal one pass). -/
def cleanChars (cs : List Char) : List Char :=
  (cs.map cleanChar).flatten

/-- `re.sub(r"\s+", " ", text)`: every maximal whitespace run becomes one space.
The flag records whether the previous character was part of a whitespace run. -/
def collapseAux : Bool → List Char → List Char
  | _, [] => []
  | prevSpace, c :: cs =>
    if isPySpace c then
      if prevSpace then collapseAux true cs
      else ' ' :: collapseAux true cs
    else c :: collapseAux false cs

def collapseWs (cs : List Char) : List Char := collapseAux false cs

/-- Python `str.strip()`. -/
def pyStrip (cs : List Char) : List Char :=
  ((cs.dropWhile isPySpace).reverse.dropWhile isPySpace).reverse

/-- Python `str.lower()` restricted to its ASCII action (`A`-`Z` map to
`a`-`z`); the tool's inputs are file names, for which this is the behaviour
exercised. -/
def lowerChar (c : Char) : Char :=
  if 65 ≤ c.toNat && c.toNat ≤ 90 then Char.ofNat (c.toNat + 32) else c

def lowerChars (cs : List Char) : List Char := cs.map lowerChar

/-- `ExcelReader._normalize_name` (script.py:143-163): `None` maps to `""`;
otherwise replace the special characters, collapse whitespace runs, strip and
lower-case. -/
def normalize_name (value : Option String) : String :=
  match value with
  | none => ""
  | some s => String.mk (lowerChars (pyStrip (collapseWs (cleanChars s.data))))

def normStr (s : String) : String := normalize_name (some s)

/-- Last index at which `p` holds (Python `str.rfind` over a character class). -/
def lastIdxAux (p : Char → Bool) : List Char → Nat → Option Nat → Option Nat
  | [], _, acc => acc
  | c :: cs, i, acc => lastIdxAux p cs (i + 1) (if p c then some i else acc)

def lastIdxP (cs : List Char) (p : Char → Bool) : Option Nat :=
  lastIdxAux p cs 0 none

/-- The base computed by `os.path.splitext` (ntpath: separators `\` and `/`,
extension separator `.`): split at the last dot, provided it lies after the
last separator and the file-name part before it has a non-dot character. -/
def splitext_base (cs : List Char) : List Char :=
  match lastIdxP cs (fun c => c = '.') with
  | none => cs
  | some d =>
    let start := match lastIdxP cs (fun c => c = '\\' || c = '/') with
      | none => 0
      | some sp => sp + 1
    if start ≤ d then
      if ((cs.drop start).take (d - start)).any (fun c => c ≠ '.') then cs.take d else cs
    else cs

/-- `ExcelReader._normalize_base` (script.py:165-174): normalize, then strip a
trailing extension; fall back to the full normalized name if stripping yields
an empty string. -/
def normalize_base (value : Option String) : String :=
  let name := normalize_name value
  if name = "" then ""
  else
    let base := String.mk (splitext_base name.data)
    if base = "" then name else base

def normBaseStr (s : String) : String := normalize_base (some s)

/-! ### Character-level facts used for the normalizer's algebraic properties -/

/-- Code points that `cleanChar` rewrites. -/
def SpecialCp (n : Nat) : Prop :=
  n = 160 ∨ n = 8206 ∨ n = 8207 ∨ n = 8234 ∨ n = 8235 ∨ n = 8236 ∨
  n = 8211 ∨ n = 8212 ∨ n = 8722

def NotSpecial (c : Char) : Prop := ¬ SpecialCp c.toNat

instance (n : Nat) : Decidable (SpecialCp n) := by unfold SpecialCp; infer_instance

instance (c : Char) : Decidable (NotSpecial c) := by unfold NotSpecial; infer_instance

/-- Adjacent characters may not both be whitespace (no whitespace runs). -/
def NoWsPair (a b : Char) : Prop := ¬(isPySpace a = true ∧ isPySpace b = true)

/-! ### Spreadsheet rows and the row index (`ExcelReader._add_result` / `read_excel`) -/

/-- `ExcelRow` (script.py:133-136). -/
structure ExcelRow where
  FileName : String
  Description : String
deriving DecidableEq

/-- The row index is the Python dict `result`; insertion order makes an
association list the faithful model. -/
def lookupIdx (m : List (String × ExcelRow)) (key : String) : Option ExcelRow :=
  (m.find? (fun kv => kv.1 = key)).map (fun kv => kv.2)

/-- `ExcelReader._add_result` (script.py:176-179): register `row` under `key`
only if the key is truthy (non-empty) and not already present. -/
def add_result (result : List (String × ExcelRow)) (key : String) (row : ExcelRow) :
    List (String × ExcelRow) :=
  if key ≠ "" ∧ lookupIdx result key = none then result ++ [(key, row)] else result

/-- The indexing loop of `read_excel` (script.py:408-410): each accepted
`(file_name, description)` row is registered under `normalize(file_name)` and
`normalize_base(file_name)`. -/
def buildIndex (rows : List (String × String)) : List (String × ExcelRow) :=
  rows.foldl (fun m nd =>
    add_result (add_result m (normStr nd.1) (ExcelRow.mk nd.1 nd.2)) (normBaseStr nd.1)
      (ExcelRow.mk nd.1 nd.2)) []

/-! ### Worksheets, sheet scoring and sheet selection (`ExcelReader.read_excel`) -/

/-- One worksheet as seen through COM in `read_excel`: the `UsedRange.Value2`
grid (values `str`-rendered; `none` = empty cell) plus the per-cell
formatted-text channel `Cells(r, c).Text` used as fallback.  `readable = false`
models a sheet whose COM reads raise (the per-sheet handler swallows the
exception and skips the sheet); `nrows = 0` or `ncols = 0` models a degenerate
`UsedRange` (`re < rs or ce < cs`).  Indices are 0-based. -/
structure Sheet where
  readable : Bool
  nrows : Nat
  ncols : Nat
  val : Nat → Nat → Option String
  text : Nat → Nat → Option String

/-- Cell access during sheet scoring (script.py:269-288): `Value2` first, the
`Text` channel only when `Value2` is `None`. -/
def scoreCell (s : Sheet) (r c : Nat) : Option String :=
  match s.val r c with
  | some t => some t
  | none => s.text r c

/-- `v is not None and str(v).strip()`. -/
def cellNonblank (v : Option String) : Bool :=
  match v with
  | some t => decide (pyStrip t.data ≠ [])
  | none => false

/-- `rows`: data rows (all rows after the first) with a non-blank column-A cell. -/
def sheetRowsCount (s : Sheet) : Nat :=
  ((List.range s.nrows).drop 1).countP (fun r => cellNonblank (scoreCell s r 0))

/-- `desc_rows`: data rows with a non-blank column-B cell, counted only when
the range has a second column. -/
def sheetDescCount (s : Sheet) : Nat :=
  if 2 ≤ s.ncols then
    ((List.range s.nrows).drop 1).countP (fun r => cellNonblank (scoreCell s r 1))
  else 0

/-- The `(rows, desc_rows)` score of one sheet, or `none` when the sheet is
skipped (COM read raised, `Value2` missing, or degenerate bounds). -/
def scanSheet (s : Sheet) : Option (Nat × Nat) :=
  if s.readable = true ∧ 1 ≤ s.nrows ∧ 1 ≤ s.ncols then
    some (sheetRowsCount s, sheetDescCount s)
  else none

/-- A sheet that can never be selected: unscannable, or zero in both counts
(the fold's initial best is `(0, 0)` and only a strict improvement is taken). -/
def degenerateSheet (s : Sheet) : Prop :=
  scanSheet s = none ∨ scanSheet s = some (0, 0)

instance (s : Sheet) : Decidable (degenerateSheet s) := by
  unfold degenerateSheet; infer_instance

/-- The strict "this sheet is better" test (script.py:290-294):
`desc_rows > best desc_rows`, or a tie on `desc_rows` and `rows > best rows`. -/
def beats (rows descRows bestRows bestDesc : Nat) : Prop :=
  bestDesc < descRows ∨ (descRows = bestDesc ∧ bestRows < rows)

instance (rows descRows bestRows bestDesc : Nat) :
    Decidable (beats rows descRows bestRows bestDesc) := by
  unfold beats; infer_instance

/-- The sheet-selection fold of `read_excel` (script.py:247-324): scan sheets
in order, keeping the index of the strictly best `(desc_rows, rows)` so far. -/
def selectGo : List Sheet → Nat → Option Nat → Nat → Nat → Option Nat
  | [], _, best, _, _ => best
  | s :: rest, i, best, bestRows, bestDesc =>
    match scanSheet s with
    | none => selectGo rest (i + 1) best bestRows bestDesc
    | some (r, d) =>
      if beats r d bestRows bestDesc then selectGo rest (i + 1) (some i) r d
      else selectGo rest (i + 1) best bestRows bestDesc

/-- Index of the selected sheet (`best["sheet"]`), if any. -/
def selectIdx (sheets : List Sheet) : Option Nat := selectGo sheets 0 none 0 0

/-- Reference recursion equivalent to `selectGo`, used for reasoning: the
offset of the sheet the fold would settle on, starting from a given best
score. -/
def pickFrom (bestRows bestDesc : Nat) : List Sheet → Option Nat
  | [] => none
  | s :: rest =>
    match scanSheet s with
    | none => (pickFrom bestRows bestDesc rest).map (· + 1)
    | some (r, d) =>
      if beats r d bestRows bestDesc then
        match pickFrom r d rest with
        | none => some 0
        | some j => some (j + 1)
      else (pickFrom bestRows bestDesc rest).map (· + 1)

/-! ### Reading the selected sheet into rows and diagnostics -/

/-- Cell access in the indexing loop (script.py:384-400): fall back to the
`Text` channel when `Value2` is `None` or blank after `strip`. -/
def readCell (s : Sheet) (r c : Nat) : Option String :=
  match s.val r c with
  | none => s.text r c
  | some t => if pyStrip t.data = [] then s.text r c else some t

def strippedStr (t : String) : String := String.mk (pyStrip t.data)

/-- The description taken from the fixed second column (script.py:379-400):
present only when the range has a second column; stripped; empty otherwise. -/
def rowDesc (s : Sheet) (r : Nat) : String :=
  if 2 ≤ s.ncols then
    match readCell s r 1 with
    | some t => strippedStr t
    | none => ""
  else ""

/-- The accepted data rows of a sheet in row order: data rows whose file-name
cell is non-blank after the text fallback, as `(file_name, description)`,
both stripped. -/
def sheetRows (s : Sheet) : List (String × String) :=
  ((List.range s.nrows).drop 1).filterMap (fun r =>
    match readCell s r 0 with
    | none => none
    | some t => if pyStrip t.data = [] then none else some (strippedStr t, rowDesc s r))

/-- The diagnostic header list (script.py:364-377): normalized non-empty
header-row values (`Value2` channel only), first occurrence order. -/
def sheetHeaders (s : Sheet) : List String :=
  (List.range s.ncols).foldl (fun acc c =>
    match s.val 0 c with
    | none => acc
    | some t =>
      let h := normStr t
      if h = "" then acc else if h ∈ acc then acc else acc ++ [h]) []

/-- `ExcelReader.LastDiagnostics` (the `diag` dict of `read_excel`). -/
structure Diag where
  rowStart : Option Nat
  rowEnd : Option Nat
  colStart : Option Nat
  colEnd : Option Nat
  headers : List String
  descriptionIndex : Option Nat
  rowsRead : Nat
  samples : List (String × Option String)
  rows : List (String × String)
  sheetRowsScore : Nat
  sheetDescScore : Nat
deriving DecidableEq

/-- The initial `diag` dict (script.py:184-197): everything unset. -/
def initDiag : Diag :=
  { rowStart := none, rowEnd := none, colStart := none, colEnd := none,
    headers := [], descriptionIndex := none, rowsRead := 0, samples := [],
    rows := [], sheetRowsScore := 0, sheetDescScore := 0 }

/-- First-5 samples (script.py:402-406): post-fallback file value paired with
the raw `Value2` description cell. -/
def sheetSamples (s : Sheet) : List (String × Option String) :=
  (((List.range s.nrows).drop 1).filterMap (fun r =>
    match readCell s r 0 with
    | none => none
    | some t =>
      if pyStrip t.data = [] then none
      else some (t, if 2 ≤ s.ncols then s.val r 1 else none))).take 5

/-- The diagnostics recorded for the selected sheet (script.py:332-345,
364-382, 402-416). -/
def diagFor (s : Sheet) : Diag :=
  { rowStart := some 0, rowEnd := some (s.nrows - 1), colStart := some 0,
    colEnd := some (s.ncols - 1),
    headers := sheetHeaders s,
    descriptionIndex := if 2 ≤ s.ncols then some 1 else none,
    rowsRead := (sheetRows s).length,
    samples := sheetSamples s,
    rows := (sheetRows s).take 20,
    sheetRowsScore := sheetRowsCount s,
    sheetDescScore := sheetDescCount s }

/-- `ExcelReader.read_excel` (script.py:182-431).  The argument is `none` when
launching Excel or opening the workbook raises (`Type.GetTypeFromProgID`
returning `None`, `Activator.CreateInstance`, `Workbooks.Open`): the function
body has no handler for those (`try`/`finally` only), so the exception
propagates to the caller (`Except.error`).  With an open workbook, per-sheet
failures are swallowed inside the scan loop and the function returns the
(possibly empty) index plus diagnostics. -/
def read_excel (workbook : Option (List Sheet)) :
    Except String (List (String × ExcelRow) × Diag) :=
  match workbook with
  | none => Except.error "workbook open failed"
  | some sheets =>
    match selectIdx sheets with
    | none => Except.ok ([], initDiag)
    | some i =>
      match sheets[i]? with
      | none => Except.ok ([], initDiag)
      | some s => Except.ok (buildIndex (sheetRows s), diagFor s)

/-! ### JSON envelopes, folder-content parsing and pagination (`AccDataClient`) -/

/-- JSON values as produced by `json.loads`. -/
inductive Json where
  | null : Json
  | str : String → Json
  | num : Int → Json
  | bool : Bool → Json
  | arr : List Json → Json
  | obj : List (String × Json) → Json

/-- Python `dict.get(key)` (`None` when missing or when the value is not a
dict). -/
def jget : Json → String → Option Json
  | Json.obj kvs, key => (kvs.find? (fun kv => kv.1 = key)).map (fun kv => kv.2)
  | _, _ => none

/-- `item.get(key, "")` for the string-valued fields of the wire contract
(a missing field yields the default `""`). -/
def jgetStr (v : Json) (key : String) : String :=
  match jget v key with
  | some (Json.str s) => s
  | _ => ""

/-- `item.get(key, \x7b\x7d)` for the object-valued fields. -/
def jgetObj (v : Json) (key : String) : Json :=
  match jget v key with
  | some x => x
  | none => Json.obj []

/-- `root.get("data", [])` (script.py:724); the wire contract makes `data`
an array. -/
def dataList (root : Json) : List Json :=
  match root with
  | Json.obj _ =>
    match jget root "data" with
    | some (Json.arr xs) => xs
    | _ => []
  | _ => []

/-- `get_next_link` (script.py:1678-1683). -/
def get_next_link (root : Json) : Option Json :=
  let links := match root with
    | Json.obj _ => (jget root "links").getD (Json.obj [])
    | _ => Json.obj []
  match links with
  | Json.obj _ =>
    match jget links "next" with
    | some nl =>
      match nl with
      | Json.obj _ => jget nl "href"
      | _ => none
    | none => none
  | _ => none

/-- The `while next_url` truthiness applied to `get_next_link`'s result, for
the string-valued `href` of the wire contract (`None` or `""` stop the loop;
a non-string truthy value would crash the request layer in the source rather
than continue it, and is outside the modelled behaviour). -/
def next_url_of (root : Json) : Option String :=
  match get_next_link root with
  | some (Json.str s) => if s = "" then none else some s
  | _ => none

/-- Python `str.lower()` (ASCII action). -/
def lowerStr (s : String) : String := String.mk (lowerChars s.data)

/-- `FolderNode` (script.py:759-769), reduced to the identity fields the data
client fills in (children/placeholder are presentation state). -/
structure FolderNode where
  Id : String
  Name : String
deriving DecidableEq

/-- `FileItem` (script.py:772-778). -/
structure FileItem where
  Id : String
  DisplayName : String
  Description : String
  ExtensionType : String
  CanUpdateDescription : Bool
deriving DecidableEq

/-- One iteration of the `for item in root.get("data", [])` loop of
`_parse_folder_contents`: classify the entry by its lower-cased `type`
discriminator; unrecognized discriminators are dropped; every parsed
`FileItem` gets `can_update = True`. -/
def parse_entry (acc : List FolderNode × List FileItem) (item : Json) :
    List FolderNode × List FileItem :=
  let item_type := jgetStr item "type"
  let attrs := jgetObj item "attributes"
  if lowerStr item_type = "folders" then
    (acc.1 ++ [FolderNode.mk (jgetStr item "id") (jgetStr attrs "displayName")], acc.2)
  else if lowerStr item_type = "items" then
    let ext := jgetObj attrs "extension"
    (acc.1, acc.2 ++ [FileItem.mk (jgetStr item "id") (jgetStr attrs "displayName")
      (jgetStr attrs "description") (jgetStr ext "type") true])
  else acc

def parse_folder_contents (root : Json) (folders : List FolderNode) (files : List FileItem) :
    List FolderNode × List FileItem :=
  (dataList root).foldl parse_entry (folders, files)

/-- The pagination loop of `AccDataClient.get_files_in_folder`
(script.py:616-631): follow `next` links, accumulating folders and files
across pages.  `store` is the oracle for one authenticated GET + `json.loads`;
`visited` records each URL fetched (in order); the fuel bounds the recursion,
`none` meaning the chain did not finish within it. -/
def files_loop (store : String → Json) :
    Nat → Option String → List FolderNode → List FileItem → List String →
      Option (List FolderNode × List FileItem × List String)
  | _, none, folders, files, visited => some (folders, files, visited)
  | 0, some _, _, _, _ => none
  | fuel + 1, some u, folders, files, visited =>
    let root := store u
    let parsed := parse_folder_contents root folders files
    files_loop store fuel (next_url_of root) parsed.1 parsed.2 (visited ++ [u])

/-- `get_files_in_folder` returns the accumulated files; the visited URL list
is kept alongside for auditing the fetches. -/
def get_files_in_folder (store : String → Json) (fuel : Nat) (url : String) :
    Option (List FileItem × List String) :=
  (files_loop store fuel (some url) [] [] []).map (fun x => (x.2.1, x.2.2))

/-- A terminating `next`-link chain in `store`, starting at a URL: the listed
pages are exactly the parsed GET results along the chain and the last page has
no `next` link. -/
inductive Chain (store : String → Json) : String → List String → List Json → Prop where
  | last : ∀ u p, store u = p → next_url_of p = none → Chain store u [u] [p]
  | step : ∀ u u' p urls pages, store u = p → next_url_of p = some u' →
      Chain store u' urls pages → Chain store u (u :: urls) (p :: pages)

/-! ### OAuth callback handling (`AccAuthClient.authenticate`) -/

/-- The query parameters of the OAuth redirect callback
(`context.Request.QueryString[...]`; absent parameters are `None`). -/
structure Callback where
  code : Option String
  state : Option String
  error : Option String
deriving DecidableEq

/-- How one `authenticate` call ends (each failure is a distinct
`raise Exception(...)` in the source; `exchange` proceeds to
`_exchange_code`). -/
inductive AuthOutcome where
  | timeout
  | providerError (msg : String)
  | codeMissing
  | stateMismatch
  | exchange (code : String)
deriving DecidableEq

/-- Python truthiness of an optional query-string value. -/
def qtruthy (v : Option String) : Bool := decide (v.getD "" ≠ "")

/-- `AccAuthClient.authenticate` (script.py:461-495) as a function of the
generated anti-forgery `state` and the callback that arrived within the
timeout (`none` = timed out).  The source checks, in order: timeout, the
`error` parameter, a missing `code`, and only then the state comparison. -/
def authenticate (state : String) (cb : Option Callback) : AuthOutcome :=
  match cb with
  | none => AuthOutcome.timeout
  | some c =>
    if qtruthy c.error then AuthOutcome.providerError (c.error.getD "")
    else if qtruthy c.code = false then AuthOutcome.codeMissing
    else if c.state ≠ some state then AuthOutcome.stateMismatch
    else AuthOutcome.exchange (c.code.getD "")

/-! ### HTTP Basic credential (`AccAuthClient._basic_auth`) -/

def base64Table : List Char :=
  "ABCDEFGHIJKLMNOPQRSTUVWXYZabcdefghijklmnopqrstuvwxyz0123456789+/".data

def b64c (n : Nat) : Char := base64Table.getD n 'A'

/-- `Convert.ToBase64String` over a byte list. -/
def base64_encode : List Nat → List Char
  | [] => []
  | [a] => [b64c (a / 4), b64c (a % 4 * 16), '=', '=']
  | [a, b] => [b64c (a / 4), b64c (a % 4 * 16 + b / 16), b64c (b % 16 * 4), '=']
  | a :: b :: c :: rest =>
    b64c (a / 4) :: b64c (a % 4 * 16 + b / 16) :: b64c (b % 16 * 4 + c / 64) :: b64c (c % 64) ::
      base64_encode rest

/-- `.NET Encoding.ASCII.GetBytes`: code points above 127 become `?` (63). -/
def asciiBytes (s : String) : List Nat :=
  s.data.map (fun c => if c.toNat ≤ 127 then c.toNat else 63)

/-- UTF-8 encoding of one code point. -/
def utf8Char (c : Char) : List Nat :=
  let n := c.toNat
  if n < 128 then [n]
  else if n < 2048 then [192 + n / 64, 128 + n % 64]
  else if n < 65536 then [224 + n / 4096, 128 + n / 64 % 64, 128 + n % 64]
  else [240 + n / 262144, 128 + n / 4096 % 64, 128 + n / 64 % 64, 128 + n % 64]

def utf8Bytes (s : String) : List Nat := (s.data.map utf8Char).flatten

/-- `AccAuthClient._basic_auth` (script.py:542-545): base64 of the **ASCII**
bytes of `client_id + ":" + client_secret`. -/
def basic_auth (client_id client_secret : String) : String :=
  String.mk (base64_encode (asciiBytes (client_id ++ ":" ++ client_secret)))

/-! ### The reconciliation pass (`AccDocsWindow.on_apply_descriptions`) -/

/-- How one loop iteration ends for one file item. -/
inductive Outcome where
  | missingId
  | noMatchingRow
  | emptyDescription
  | unsupportedType
  | missingTip
  | updateFailed (err : String)
  | updated
deriving DecidableEq

/-- The outcomes that run `skipped += 1` in the source. -/
def isSkip : Outcome → Bool
  | Outcome.missingId => true
  | Outcome.noMatchingRow => true
  | Outcome.emptyDescription => true
  | Outcome.unsupportedType => true
  | Outcome.missingTip => true
  | _ => false

/-- Per-item audit record: the outcome, any recorded pre-update fetch error,
the `update_version_description` calls issued as `(version_id, description)`,
and the item's in-memory description after the iteration. -/
structure ItemResult where
  outcome : Outcome
  fetchError : Option String
  updateCalls : List (String × String)
  finalDescription : String
deriving DecidableEq

/-- The row lookup of the loop body (script.py:1482-1486): the key
`normalize(display_name)` first; only on a miss, `normalize_base(display_name)`.
Below, the body of the reconciliation loop (script.py:1475-1549) for one
`file_item`: `rows` is the Excel index; `detail` is the oracle for
`get_item_detail` + tip extraction per item id (`Except.error` = the fetch
raised, which the inner handler records and turns into `tip = None`;
`Except.ok tip?` = the possibly-missing tip id from the item JSON); `update`
is the oracle for `update_version_description` per `(version_id, description)`. -/
def matched_row (rows : List (String × ExcelRow)) (displayName : String) : Option ExcelRow :=
  match lookupIdx rows (normStr displayName) with
  | some r => some r
  | none => lookupIdx rows (normBaseStr displayName)

/-- The error recorded by the inner fetch handler ("Pre-update fetch failed"),
if the `get_item_detail` fetch raised. -/
def fetch_error : Except String (Option String) → Option String
  | Except.error e => some e
  | Except.ok _ => none

/-- The tip-version id available after the fetch: `None` when the fetch raised
(the handler sets `tip = None`), else the id extracted from the item JSON. -/
def fetch_tip : Except String (Option String) → Option String
  | Except.error _ => none
  | Except.ok t => t

/-- The body of the reconciliation loop for one `file_item`; see above. -/
def item_step (rows : List (String × ExcelRow))
    (detail : String → Except String (Option String))
    (update : String → String → Except String Unit) (it : FileItem) : ItemResult :=
  if it.Id = "" then ⟨Outcome.missingId, none, [], it.Description⟩
  else
    match matched_row rows it.DisplayName with
    | none => ⟨Outcome.noMatchingRow, none, [], it.Description⟩
    | some row =>
      if row.Description = "" then ⟨Outcome.emptyDescription, none, [], it.Description⟩
      else
        if it.ExtensionType = "items:autodesk.bim360:C4RModel" then
          ⟨Outcome.unsupportedType, fetch_error (detail it.Id), [], it.Description⟩
        else
          match fetch_tip (detail it.Id) with
          | none => ⟨Outcome.missingTip, fetch_error (detail it.Id), [], it.Description⟩
          | some t =>
            if t = "" then ⟨Outcome.missingTip, fetch_error (detail it.Id), [], it.Description⟩
            else
              match update t row.Description with
              | Except.ok _ =>
                ⟨Outcome.updated, fetch_error (detail it.Id), [(t, row.Description)],
                  row.Description⟩
              | Except.error e =>
                ⟨Outcome.updateFailed e, fetch_error (detail it.Id), [(t, row.Description)],
                  it.Description⟩

structure PassResult where
  updatedCount : Nat
  skippedCount : Nat
  results : List ItemResult
deriving DecidableEq

/-- The reconciliation pass (script.py:1453-1557): iterate the discovered
file items in order, run the loop body on each, and keep the
`updated`/`skipped` counters. -/
def on_apply_descriptions (rows : List (String × ExcelRow))
    (detail : String → Except String (Option String))
    (update : String → String → Except String Unit) (items : List FileItem) : PassResult :=
  items.foldl (fun acc it =>
    let r := item_step rows detail update it
    { updatedCount := acc.updatedCount + (if r.outcome = Outcome.updated then 1 else 0),
      skippedCount := acc.skippedCount + (if isSkip r.outcome then 1 else 0),
      results := acc.results ++ [r] })
    { updatedCount := 0, skippedCount := 0, results := [] }

/-! ### Concrete data used by witnesses and counterexamples -/

/-- A sheet whose only data row has the left-to-right mark (U+200E) as its
file name: non-blank to Python's `strip`, so the row is accepted, yet its
canonical keys normalize to `""`. -/
def lrmSheet : Sheet :=
  { readable := true, nrows := 2, ncols := 2,
    val := fun r c =>
      if r = 1 ∧ c = 0 then some "‎"
      else if r = 1 ∧ c = 1 then some "desc" else some "name",
    text := fun _ _ => none }

/-- A sheet whose COM reads raise: the scan loop skips it. -/
def unreadableSheet : Sheet :=
  { readable := false, nrows := 3, ncols := 2, val := fun _ _ => some "x",
    text := fun _ _ => none }

def sheetNoDesc : Sheet :=
  { readable := true, nrows := 4, ncols := 1, val := fun _ _ => some "a",
    text := fun _ _ => none }

def sheetTieA : Sheet :=
  { readable := true, nrows := 4, ncols := 2, val := fun _ _ => some "b",
    text := fun _ _ => none }

def sheetTieB : Sheet :=
  { readable := true, nrows := 4, ncols := 2, val := fun _ _ => some "c",
    text := fun _ _ => none }

def sheetBig : Sheet :=
  { readable := true, nrows := 6, ncols := 2, val := fun _ _ => some "d",
    text := fun _ _ => none }

/-- A workbook whose sheets score `desc_rows` = 0, 3, 3, 5. -/
def wbExample : List Sheet := [sheetNoDesc, sheetTieA, sheetTieB, sheetBig]

def fileEntry (id name desc ext : String) : Json :=
  Json.obj [("type", Json.str "items"), ("id", Json.str id),
    ("attributes", Json.obj [("displayName", Json.str name), ("description", Json.str desc),
      ("extension", Json.obj [("type", Json.str ext)])])]

def pageWith (entries : List Json) (next : Option String) : Json :=
  Json.obj ([("data", Json.arr entries)] ++ (match next with
    | some u => [("links", Json.obj [("next", Json.obj [("href", Json.str u)])])]
    | none => []))

def page1 : Json := pageWith [fileEntry "i1" "A.dwg" "" "items:autodesk.bim360:File"] (some "u2")

def page2 : Json := pageWith [fileEntry "i2" "B.dwg" "" "items:autodesk.bim360:File"] (some "u3")

def page3 : Json := pageWith [fileEntry "i3" "C.dwg" "" "items:autodesk.bim360:File"] none

/-- A three-page listing linked `u1 → u2 → u3`. -/
def store3 : String → Json :=
  fun u =>
    if u = "u1" then page1 else if u = "u2" then page2 else if u = "u3" then page3
    else Json.obj []

/-! ### Lemmas and claim theorems -/

theorem toNat_ofNat_of_lt (n : Nat) (h : n < 55296) : (Char.ofNat n).toNat = n := by
  have hv : Nat.isValidChar n := Or.inl h
  simp [Char.ofNat, hv, Char.toNat, Char.ofNatAux, UInt32.toNat, BitVec.toNat_ofNatLt]

theorem char_eq_of_toNat_eq {a b : Char} (h : a.toNat = b.toNat) : a = b := by
  rw [← Char.ofNat_toNat a, h, Char.ofNat_toNat]

theorem toNat_lowerChar (c : Char) :
    (lowerChar c).toNat = if 65 ≤ c.toNat ∧ c.toNat ≤ 90 then c.toNat + 32 else c.toNat := by
  by_cases h : 65 ≤ c.toNat ∧ c.toNat ≤ 90
  · have hb : (65 ≤ c.toNat && c.toNat ≤ 90) = true := by
      simp only [Bool.and_eq_true, decide_eq_true_eq]; exact h
    rw [if_pos h]
    unfold lowerChar
    rw [hb, if_pos rfl]
    exact toNat_ofNat_of_lt _ (by omega)
  · have hb : (65 ≤ c.toNat && c.toNat ≤ 90) = false := by
      rw [Bool.and_eq_false_iff]
      rcases Decidable.not_and_iff_or_not.mp h with h' | h'
      · exact Or.inl (by simpa using h')
      · exact Or.inr (by simpa using h')
    rw [if_neg h]
    unfold lowerChar
    rw [hb]
    simp

theorem lowerChar_lowerChar (c : Char) : lowerChar (lowerChar c) = lowerChar c := by
  apply char_eq_of_toNat_eq
  rw [toNat_lowerChar (lowerChar c), toNat_lowerChar c]
  split_ifs <;> omega

theorem isPySpace_lowerChar (c : Char) : isPySpace (lowerChar c) = isPySpace c := by
  unfold isPySpace
  rw [decide_eq_decide, toNat_lowerChar]
  split_ifs with h
  · unfold PySpaceCp
    constructor <;> intro <;> omega
  · exact Iff.rfl

theorem cleanChar_of_notSpecial {c : Char} (h : NotSpecial c) : cleanChar c = [c] := by
  unfold NotSpecial SpecialCp at h
  unfold cleanChar
  rw [if_neg (by omega), if_neg (by omega), if_neg (by omega)]

theorem notSpecial_of_mem_cleanChar {c c' : Char} (h : c' ∈ cleanChar c) : NotSpecial c' := by
  unfold cleanChar at h
  split_ifs at h with h1 h2 h3 <;> simp only [List.mem_singleton, List.not_mem_nil] at h
  · subst h; decide
  · subst h; decide
  · subst h; unfold NotSpecial SpecialCp; omega

theorem notSpecial_lowerChar {c : Char} (h : NotSpecial c) : NotSpecial (lowerChar c) := by
  unfold NotSpecial SpecialCp at *
  rw [toNat_lowerChar]
  split_ifs with hc <;> omega

theorem notSpecial_space : NotSpecial ' ' := by decide

theorem cleanChars_nil : cleanChars [] = [] := rfl

theorem cleanChars_cons (c : Char) (cs : List Char) :
    cleanChars (c :: cs) = cleanChar c ++ cleanChars cs := by
  simp [cleanChars]

theorem cleanChars_fix {cs : List Char} (h : ∀ c ∈ cs, cleanChar c = [c]) :
    cleanChars cs = cs := by
  induction cs with
  | nil => rfl
  | cons c cs ih =>
    rw [cleanChars_cons, h c (List.mem_cons_self c cs),
      ih (fun x hx => h x (List.mem_cons_of_mem _ hx))]
    rfl

theorem notSpecial_of_mem_cleanChars {cs : List Char} {c' : Char} (h : c' ∈ cleanChars cs) :
    NotSpecial c' := by
  unfold cleanChars at h
  rw [List.mem_flatten] at h
  obtain ⟨l, hl, hc⟩ := h
  rw [List.mem_map] at hl
  obtain ⟨c, -, rfl⟩ := hl
  exact notSpecial_of_mem_cleanChar hc

theorem collapseAux_cons_sp_true {d : Char} (cs : List Char) (hd : isPySpace d = true) :
    collapseAux true (d :: cs) = collapseAux true cs := by
  simp [collapseAux, hd]

theorem collapseAux_cons_sp_false {d : Char} (cs : List Char) (hd : isPySpace d = true) :
    collapseAux false (d :: cs) = ' ' :: collapseAux true cs := by
  simp [collapseAux, hd]

theorem collapseAux_cons_nonsp {d : Char} (cs : List Char) (b : Bool) (hd : isPySpace d = false) :
    collapseAux b (d :: cs) = d :: collapseAux false cs := by
  simp [collapseAux, hd]

theorem mem_collapseAux {c : Char} :
    ∀ (b : Bool) (cs : List Char), c ∈ collapseAux b cs →
      c = ' ' ∨ (c ∈ cs ∧ isPySpace c = false) := by
  intro b cs
  induction cs generalizing b with
  | nil => intro h; simp [collapseAux] at h
  | cons d cs ih =>
    intro h
    cases hd : isPySpace d with
    | true =>
      cases b with
      | true =>
        rw [collapseAux_cons_sp_true cs hd] at h
        rcases ih true h with h' | ⟨h1, h2⟩
        · exact Or.inl h'
        · exact Or.inr ⟨List.mem_cons_of_mem _ h1, h2⟩
      | false =>
        rw [collapseAux_cons_sp_false cs hd] at h
        rcases List.mem_cons.mp h with rfl | h'
        · exact Or.inl rfl
        · rcases ih true h' with h'' | ⟨h1, h2⟩
          · exact Or.inl h''
          · exact Or.inr ⟨List.mem_cons_of_mem _ h1, h2⟩
    | false =>
      rw [collapseAux_cons_nonsp cs b hd] at h
      rcases List.mem_cons.mp h with rfl | h'
      · exact Or.inr ⟨List.mem_cons_self _ _, hd⟩
      · rcases ih false h' with h'' | ⟨h1, h2⟩
        · exact Or.inl h''
        · exact Or.inr ⟨List.mem_cons_of_mem _ h1, h2⟩

theorem head_collapseAux_true {c : Char} :
    ∀ cs : List Char, (collapseAux true cs).head? = some c → isPySpace c = false := by
  intro cs
  induction cs with
  | nil => intro h; simp [collapseAux] at h
  | cons d cs ih =>
    intro h
    cases hd : isPySpace d with
    | true =>
      rw [collapseAux_cons_sp_true cs hd] at h
      exact ih h
    | false =>
      rw [collapseAux_cons_nonsp cs true hd, List.head?_cons, Option.some_inj] at h
      subst h
      exact hd

theorem chain'_collapseAux : ∀ (b : Bool) (cs : List Char),
    List.Chain' NoWsPair (collapseAux b cs) := by
  intro b cs
  induction cs generalizing b with
  | nil => simp [collapseAux]
  | cons d cs ih =>
    cases hd : isPySpace d with
    | true =>
      cases b with
      | true =>
        rw [collapseAux_cons_sp_true cs hd]
        exact ih true
      | false =>
        rw [collapseAux_cons_sp_false cs hd, List.chain'_cons']
        refine ⟨?_, ih true⟩
        intro y hy hcon
        have := head_collapseAux_true cs hy
        rw [this] at hcon
        exact Bool.false_ne_true hcon.2
    | false =>
      rw [collapseAux_cons_nonsp cs b hd, List.chain'_cons']
      refine ⟨?_, ih false⟩
      intro y hy hcon
      rw [hd] at hcon
      exact Bool.false_ne_true hcon.1

theorem collapseAux_fix :
    ∀ cs : List Char, (∀ c ∈ cs, isPySpace c = true → c = ' ') →
      List.Chain' NoWsPair cs →
      collapseAux false cs = cs ∧
        ((∀ c, cs.head? = some c → isPySpace c = false) → collapseAux true cs = cs) := by
  intro cs
  induction cs with
  | nil => intro _ _; exact ⟨rfl, fun _ => rfl⟩
  | cons d cs ih =>
    intro hsp hch
    have hch' : List.Chain' NoWsPair cs := hch.tail
    have hsp' : ∀ c ∈ cs, isPySpace c = true → c = ' ' :=
      fun c hc => hsp c (List.mem_cons_of_mem _ hc)
    obtain ⟨ihf, iht⟩ := ih hsp' hch'
    cases hd : isPySpace d with
    | true =>
      have hd' : d = ' ' := hsp d (List.mem_cons_self _ _) hd
      have hhead : ∀ c, cs.head? = some c → isPySpace c = false := by
        intro c hc
        cases cs with
        | nil => simp at hc
        | cons e cs' =>
          rw [List.head?_cons, Option.some_inj] at hc
          subst hc
          have hrel := List.chain'_cons.mp hch
          by_contra hcon
          exact hrel.1 ⟨hd, by simpa using hcon⟩
      constructor
      · rw [collapseAux_cons_sp_false cs hd, iht hhead, hd']
      · intro hh
        have := hh d List.head?_cons
        rw [hd] at this
        exact absurd this (by simp)
    | false =>
      constructor
      · rw [collapseAux_cons_nonsp cs false hd, ihf]
      · intro _
        rw [collapseAux_cons_nonsp cs true hd, ihf]

theorem pyStrip_contiguous (cs : List Char) : pyStrip cs <:+: cs := by
  unfold pyStrip
  set t := cs.dropWhile isPySpace with ht
  have hsuf : t <:+ cs := List.dropWhile_suffix _
  have hpre : (t.reverse.dropWhile isPySpace).reverse <+: t := by
    have h1 : t.reverse.dropWhile isPySpace <:+ t.reverse := List.dropWhile_suffix _
    have h2 := List.reverse_prefix.mpr h1
    rwa [List.reverse_reverse] at h2
  exact List.infix_iff_prefix_suffix.mpr ⟨t, hpre, hsuf⟩

theorem mem_pyStrip {cs : List Char} {c : Char} (h : c ∈ pyStrip cs) : c ∈ cs :=
  (pyStrip_contiguous cs).subset h

theorem chain'_pyStrip {R : Char → Char → Prop} {cs : List Char}
    (h : List.Chain' R cs) : List.Chain' R (pyStrip cs) :=
  h.infix (pyStrip_contiguous cs)

theorem head_of_initial {l t : List Char} {c : Char} (h : l <+: t) (hc : l.head? = some c) :
    t.head? = some c := by
  obtain ⟨r, rfl⟩ := h
  cases l with
  | nil => simp at hc
  | cons x xs =>
    rw [List.head?_cons, Option.some_inj] at hc
    subst hc
    rfl

theorem head_dropWhile_false {p : Char → Bool} {cs : List Char} {c : Char}
    (h : (cs.dropWhile p).head? = some c) : p c = false := by
  have := List.head?_dropWhile_not p cs
  rw [h] at this
  exact this

theorem head_pyStrip {cs : List Char} {c : Char} (h : (pyStrip cs).head? = some c) :
    isPySpace c = false := by
  unfold pyStrip at h
  set t := cs.dropWhile isPySpace with ht
  have hpre : (t.reverse.dropWhile isPySpace).reverse <+: t := by
    have h1 : t.reverse.dropWhile isPySpace <:+ t.reverse := List.dropWhile_suffix _
    have h2 := List.reverse_prefix.mpr h1
    rwa [List.reverse_reverse] at h2
  exact head_dropWhile_false (head_of_initial hpre h)

theorem getLast_pyStrip {cs : List Char} {c : Char} (h : (pyStrip cs).getLast? = some c) :
    isPySpace c = false := by
  unfold pyStrip at h
  rw [List.getLast?_reverse] at h
  exact head_dropWhile_false h

theorem dropWhile_eq_self_of_head {p : Char → Bool} {cs : List Char}
    (h : ∀ c, cs.head? = some c → p c = false) : cs.dropWhile p = cs := by
  cases cs with
  | nil => rfl
  | cons d cs =>
    have := h d List.head?_cons
    rw [List.dropWhile_cons, this]
    simp

theorem pyStrip_fix {cs : List Char}
    (hh : ∀ c, cs.head? = some c → isPySpace c = false)
    (hl : ∀ c, cs.getLast? = some c → isPySpace c = false) : pyStrip cs = cs := by
  unfold pyStrip
  rw [dropWhile_eq_self_of_head hh]
  have : cs.reverse.dropWhile isPySpace = cs.reverse := by
    apply dropWhile_eq_self_of_head
    intro c hc
    rw [List.head?_reverse] at hc
    exact hl c hc
  rw [this, List.reverse_reverse]

theorem lowerChars_idem (cs : List Char) : lowerChars (lowerChars cs) = lowerChars cs := by
  unfold lowerChars
  rw [List.map_map]
  apply List.map_congr_left
  intro c _
  exact lowerChar_lowerChar c

/-! ### The normalizer is idempotent -/

theorem normStr_data (s : String) :
    (normStr s).data = lowerChars (pyStrip (collapseWs (cleanChars s.data))) := rfl

theorem notSpecial_of_mem_normStr {s : String} {c : Char} (h : c ∈ (normStr s).data) :
    NotSpecial c := by
  rw [normStr_data] at h
  obtain ⟨c₂, hc₂, rfl⟩ := List.mem_map.mp h
  apply notSpecial_lowerChar
  have hc₃ := mem_pyStrip hc₂
  rcases mem_collapseAux false (cleanChars s.data) hc₃ with rfl | ⟨hm, -⟩
  · exact notSpecial_space
  · exact notSpecial_of_mem_cleanChars hm

theorem cleanChars_normStr (s : String) : cleanChars (normStr s).data = (normStr s).data := by
  exact cleanChars_fix (fun c hc => cleanChar_of_notSpecial (notSpecial_of_mem_normStr hc))

theorem spOk_of_mem_normStr {s : String} {c : Char} (h : c ∈ (normStr s).data)
    (hsp : isPySpace c = true) : c = ' ' := by
  rw [normStr_data] at h
  obtain ⟨c₂, hc₂, rfl⟩ := List.mem_map.mp h
  rw [isPySpace_lowerChar] at hsp
  have hc₃ := mem_pyStrip hc₂
  rcases mem_collapseAux false (cleanChars s.data) hc₃ with rfl | ⟨-, hns⟩
  · decide
  · rw [hns] at hsp
    exact absurd hsp (by simp)

theorem chain'_normStr (s : String) : List.Chain' NoWsPair (normStr s).data := by
  rw [normStr_data]
  unfold lowerChars
  rw [List.chain'_map]
  apply List.Chain'.imp ?_ (chain'_pyStrip (chain'_collapseAux false (cleanChars s.data)))
  intro a b hab hcon
  rw [isPySpace_lowerChar, isPySpace_lowerChar] at hcon
  exact hab hcon

theorem collapseWs_normStr (s : String) : collapseWs (normStr s).data = (normStr s).data := by
  exact (collapseAux_fix _ (fun c hc => spOk_of_mem_normStr hc) (chain'_normStr s)).1

theorem head_normStr {s : String} {c : Char} (h : (normStr s).data.head? = some c) :
    isPySpace c = false := by
  rw [normStr_data] at h
  unfold lowerChars at h
  rw [List.head?_map] at h
  cases hh : (pyStrip (collapseWs (cleanChars s.data))).head? with
  | none => rw [hh] at h; simp at h
  | some c₂ =>
    rw [hh] at h
    simp only [Option.map_some', Option.some_inj] at h
    subst h
    rw [isPySpace_lowerChar]
    exact head_pyStrip hh

theorem getLast_normStr {s : String} {c : Char} (h : (normStr s).data.getLast? = some c) :
    isPySpace c = false := by
  rw [normStr_data] at h
  unfold lowerChars at h
  rw [List.getLast?_map] at h
  cases hh : (pyStrip (collapseWs (cleanChars s.data))).getLast? with
  | none => rw [hh] at h; simp at h
  | some c₂ =>
    rw [hh] at h
    simp only [Option.map_some', Option.some_inj] at h
    subst h
    rw [isPySpace_lowerChar]
    exact getLast_pyStrip hh

theorem pyStrip_normStr (s : String) : pyStrip (normStr s).data = (normStr s).data :=
  pyStrip_fix (fun _ => head_normStr) (fun _ => getLast_normStr)

theorem lowerChars_normStr (s : String) : lowerChars (normStr s).data = (normStr s).data := by
  rw [normStr_data]
  exact lowerChars_idem _

/-- `_normalize_name` is idempotent. -/
theorem normStr_idem (s : String) : normStr (normStr s) = normStr s := by
  show String.mk (lowerChars (pyStrip (collapseWs (cleanChars (normStr s).data)))) = normStr s
  rw [cleanChars_normStr, collapseWs_normStr, pyStrip_normStr, lowerChars_normStr]

/-- `_normalize_base` is invariant under pre-normalization. -/
theorem normBase_normStr (s : String) : normBaseStr (normStr s) = normBaseStr s := by
  unfold normBaseStr normalize_base
  rw [show normalize_name (some (normStr s)) = normalize_name (some s) from normStr_idem s]

theorem lookupIdx_append (m₁ m₂ : List (String × ExcelRow)) (k : String) :
    lookupIdx (m₁ ++ m₂) k = (lookupIdx m₁ k).or (lookupIdx m₂ k) := by
  unfold lookupIdx
  rw [List.find?_append]
  cases List.find? (fun kv => kv.1 = k) m₁ <;> simp

theorem lookupIdx_singleton (key k : String) (row : ExcelRow) :
    lookupIdx [(key, row)] k = if key = k then some row else none := by
  unfold lookupIdx
  by_cases hk : key = k
  · simp [List.find?, hk]
  · simp [List.find?, hk]

theorem lookup_add_result (m : List (String × ExcelRow)) (key : String) (row : ExcelRow)
    (k : String) :
    lookupIdx (add_result m key row) k =
      (lookupIdx m k).or (if key = k ∧ k ≠ "" then some row else none) := by
  unfold add_result
  by_cases hadd : key ≠ "" ∧ lookupIdx m key = none
  · rw [if_pos hadd, lookupIdx_append, lookupIdx_singleton]
    congr 1
    by_cases hk : key = k
    · subst hk
      rw [if_pos rfl, if_pos ⟨rfl, hadd.1⟩]
    · rw [if_neg hk, if_neg (fun hc : key = k ∧ k ≠ "" => hk hc.1)]
  · rw [if_neg hadd]
    by_cases hk : key = k ∧ k ≠ ""
    · obtain ⟨rfl, hne⟩ := hk
      rw [if_pos ⟨rfl, hne⟩]
      cases hl : lookupIdx m key with
      | none => exact absurd ⟨hne, hl⟩ hadd
      | some r => simp
    · rw [if_neg hk]
      simp

theorem lookup_buildIndex_fold (rows : List (String × String)) (k : String) :
    ∀ m : List (String × ExcelRow),
      lookupIdx
        (rows.foldl (fun m nd =>
          add_result (add_result m (normStr nd.1) (ExcelRow.mk nd.1 nd.2)) (normBaseStr nd.1)
            (ExcelRow.mk nd.1 nd.2)) m) k =
      (lookupIdx m k).or
        (if k = "" then none
         else (rows.find? (fun nd => normStr nd.1 = k || normBaseStr nd.1 = k)).map
           (fun nd => ExcelRow.mk nd.1 nd.2)) := by
  induction rows with
  | nil => intro m; simp
  | cons nd rows ih =>
    intro m
    rw [List.foldl_cons, ih, lookup_add_result, lookup_add_result, Option.or_assoc,
      Option.or_assoc]
    congr 1
    by_cases hk : k = ""
    · subst hk
      rw [if_pos rfl, if_pos rfl,
        if_neg (fun hc : normStr nd.1 = "" ∧ "" ≠ "" => hc.2 rfl),
        if_neg (fun hc : normBaseStr nd.1 = "" ∧ "" ≠ "" => hc.2 rfl)]
      simp
    · rw [if_neg hk, if_neg hk]
      by_cases h1 : normStr nd.1 = k
      · rw [if_pos ⟨h1, hk⟩, List.find?_cons_of_pos _ (by simp [h1])]
        simp
      · rw [if_neg (fun hc : normStr nd.1 = k ∧ k ≠ "" => h1 hc.1)]
        by_cases h2 : normBaseStr nd.1 = k
        · rw [if_pos ⟨h2, hk⟩, List.find?_cons_of_pos _ (by simp [h2])]
          simp
        · rw [if_neg (fun hc : normBaseStr nd.1 = k ∧ k ≠ "" => h2 hc.1),
            List.find?_cons_of_neg _ (by simp [h1, h2])]
          simp

/-- Full characterization of the built row index: the empty key is never
registered; any other key returns the earliest accepted row carrying it. -/
theorem lookup_buildIndex (rows : List (String × String)) (k : String) :
    lookupIdx (buildIndex rows) k =
      (if k = "" then none
       else (rows.find? (fun nd => normStr nd.1 = k || normBaseStr nd.1 = k)).map
         (fun nd => ExcelRow.mk nd.1 nd.2)) := by
  unfold buildIndex
  rw [lookup_buildIndex_fold rows k []]
  simp [lookupIdx]

theorem beats_irrefl (r d : Nat) : ¬beats r d r d := by unfold beats; omega

theorem beats_asymm {a b c d : Nat} (h : beats a b c d) : ¬beats c d a b := by
  unfold beats at *; omega

theorem beats_trans {a b c d e f : Nat} (h1 : beats a b c d) (h2 : beats c d e f) :
    beats a b e f := by
  unfold beats at *; omega

theorem beats_of_not_beats {a b c d e f : Nat} (h1 : ¬beats a b c d) (h2 : beats e f c d) :
    beats e f a b := by
  unfold beats at *; omega

theorem beats_zero_iff (r d : Nat) : beats r d 0 0 ↔ ¬(r = 0 ∧ d = 0) := by
  unfold beats; omega

theorem selectGo_cons_none {s : Sheet} (rest : List Sheet) (i : Nat) (best : Option Nat)
    (bR bD : Nat) (hs : scanSheet s = none) :
    selectGo (s :: rest) i best bR bD = selectGo rest (i + 1) best bR bD := by
  simp only [selectGo, hs]

theorem selectGo_cons_beats {s : Sheet} {r d : Nat} (rest : List Sheet) (i : Nat)
    (best : Option Nat) (bR bD : Nat) (hs : scanSheet s = some (r, d))
    (hb : beats r d bR bD) :
    selectGo (s :: rest) i best bR bD = selectGo rest (i + 1) (some i) r d := by
  simp only [selectGo, hs]; rw [if_pos hb]

theorem selectGo_cons_nobeats {s : Sheet} {r d : Nat} (rest : List Sheet) (i : Nat)
    (best : Option Nat) (bR bD : Nat) (hs : scanSheet s = some (r, d))
    (hb : ¬beats r d bR bD) :
    selectGo (s :: rest) i best bR bD = selectGo rest (i + 1) best bR bD := by
  simp only [selectGo, hs]; rw [if_neg hb]

theorem pickFrom_cons_none {s : Sheet} (rest : List Sheet) (bR bD : Nat)
    (hs : scanSheet s = none) :
    pickFrom bR bD (s :: rest) = (pickFrom bR bD rest).map (· + 1) := by
  simp only [pickFrom, hs]

theorem pickFrom_cons_beats {s : Sheet} {r d : Nat} (rest : List Sheet) (bR bD : Nat)
    (hs : scanSheet s = some (r, d)) (hb : beats r d bR bD) :
    pickFrom bR bD (s :: rest) =
      match pickFrom r d rest with
      | none => some 0
      | some j => some (j + 1) := by
  simp only [pickFrom, hs]; rw [if_pos hb]

theorem pickFrom_cons_nobeats {s : Sheet} {r d : Nat} (rest : List Sheet) (bR bD : Nat)
    (hs : scanSheet s = some (r, d)) (hb : ¬beats r d bR bD) :
    pickFrom bR bD (s :: rest) = (pickFrom bR bD rest).map (· + 1) := by
  simp only [pickFrom, hs]; rw [if_neg hb]

theorem selectGo_eq_pickFrom :
    ∀ (rest : List Sheet) (i : Nat) (best : Option Nat) (bR bD : Nat),
      selectGo rest i best bR bD =
        match pickFrom bR bD rest with
        | none => best
        | some j => some (i + j) := by
  intro rest
  induction rest with
  | nil => intro i best bR bD; rfl
  | cons s rest ih =>
    intro i best bR bD
    cases hs : scanSheet s with
    | none =>
      rw [selectGo_cons_none rest i best bR bD hs, pickFrom_cons_none rest bR bD hs, ih]
      cases hp : pickFrom bR bD rest with
      | none => simp
      | some j => simp; omega
    | some rd =>
      obtain ⟨r, d⟩ := rd
      by_cases hb : beats r d bR bD
      · rw [selectGo_cons_beats rest i best bR bD hs hb, pickFrom_cons_beats rest bR bD hs hb,
          ih]
        cases hp : pickFrom r d rest with
        | none => simp
        | some j => simp; omega
      · rw [selectGo_cons_nobeats rest i best bR bD hs hb,
          pickFrom_cons_nobeats rest bR bD hs hb, ih]
        cases hp : pickFrom bR bD rest with
        | none => simp
        | some j => simp; omega

theorem pickFrom_none {bR bD : Nat} :
    ∀ rest : List Sheet, pickFrom bR bD rest = none →
      ∀ s ∈ rest, ∀ r d, scanSheet s = some (r, d) → ¬beats r d bR bD := by
  intro rest
  induction rest with
  | nil => intro _ s hs; simp at hs
  | cons s rest ih =>
    intro h t ht r d hscan
    cases hs : scanSheet s with
    | none =>
      rw [pickFrom_cons_none rest bR bD hs, Option.map_eq_none'] at h
      rcases List.mem_cons.mp ht with rfl | ht'
      · rw [hscan] at hs; exact absurd hs (by simp)
      · exact ih h t ht' r d hscan
    | some rd =>
      obtain ⟨r₀, d₀⟩ := rd
      by_cases hb : beats r₀ d₀ bR bD
      · rw [pickFrom_cons_beats rest bR bD hs hb] at h
        cases hp : pickFrom r₀ d₀ rest <;> rw [hp] at h <;> exact absurd h (by simp)
      · rw [pickFrom_cons_nobeats rest bR bD hs hb, Option.map_eq_none'] at h
        rcases List.mem_cons.mp ht with rfl | ht'
        · rw [hscan] at hs
          injection hs with hs'
          injection hs' with h1 h2
          subst h1; subst h2
          exact hb
        · exact ih h t ht' r d hscan

theorem pickFrom_some :
    ∀ (rest : List Sheet) (bR bD j : Nat), pickFrom bR bD rest = some j →
      ∃ s r d, rest[j]? = some s ∧ scanSheet s = some (r, d) ∧ beats r d bR bD ∧
        (∀ j' t r' d', rest[j']? = some t → scanSheet t = some (r', d') →
          ¬beats r' d' r d ∧ (j' < j → beats r d r' d')) := by
  intro rest
  induction rest with
  | nil => intro bR bD j h; simp [pickFrom] at h
  | cons s rest ih =>
    intro bR bD j h
    cases hs : scanSheet s with
    | none =>
      rw [pickFrom_cons_none rest bR bD hs] at h
      cases hp : pickFrom bR bD rest with
      | none => rw [hp] at h; exact absurd h (by simp)
      | some j₀ =>
        rw [hp] at h
        simp only [Option.map_some', Option.some_inj] at h
        subst h
        obtain ⟨t₀, r₀, d₀, hget, hscan₀, hbeats₀, hprops⟩ := ih bR bD j₀ hp
        refine ⟨t₀, r₀, d₀, by simpa using hget, hscan₀, hbeats₀, ?_⟩
        intro j' t r' d' hget' hscan'
        cases j' with
        | zero =>
          rw [List.getElem?_cons_zero, Option.some_inj] at hget'
          subst hget'
          rw [hscan'] at hs
          exact absurd hs (by simp)
        | succ k =>
          rw [List.getElem?_cons_succ] at hget'
          obtain ⟨hle, hlt⟩ := hprops k t r' d' hget' hscan'
          exact ⟨hle, fun hk => hlt (by omega)⟩
    | some rd =>
      obtain ⟨r, d⟩ := rd
      by_cases hb : beats r d bR bD
      · rw [pickFrom_cons_beats rest bR bD hs hb] at h
        cases hp : pickFrom r d rest with
        | none =>
          rw [hp] at h
          rw [Option.some_inj] at h
          subst h
          refine ⟨s, r, d, List.getElem?_cons_zero, hs, hb, ?_⟩
          intro j' t r' d' hget' hscan'
          cases j' with
          | zero =>
            rw [List.getElem?_cons_zero, Option.some_inj] at hget'
            subst hget'
            rw [hscan'] at hs
            injection hs with hs'
            injection hs' with h1 h2
            subst h1; subst h2
            exact ⟨beats_irrefl _ _, by omega⟩
          | succ k =>
            rw [List.getElem?_cons_succ] at hget'
            exact ⟨pickFrom_none rest hp t (List.getElem?_mem hget') r' d' hscan',
              by omega⟩
        | some j₀ =>
          rw [hp] at h
          rw [Option.some_inj] at h
          subst h
          obtain ⟨t₀, r₀, d₀, hget, hscan₀, hbeats₀, hprops⟩ := ih r d j₀ hp
          refine ⟨t₀, r₀, d₀, by simpa using hget, hscan₀, beats_trans hbeats₀ hb, ?_⟩
          intro j' t r' d' hget' hscan'
          cases j' with
          | zero =>
            rw [List.getElem?_cons_zero, Option.some_inj] at hget'
            subst hget'
            rw [hscan'] at hs
            injection hs with hs'
            injection hs' with h1 h2
            subst h1; subst h2
            exact ⟨beats_asymm hbeats₀, fun _ => hbeats₀⟩
          | succ k =>
            rw [List.getElem?_cons_succ] at hget'
            obtain ⟨hle, hlt⟩ := hprops k t r' d' hget' hscan'
            exact ⟨hle, fun hk => hlt (by omega)⟩
      · rw [pickFrom_cons_nobeats rest bR bD hs hb] at h
        cases hp : pickFrom bR bD rest with
        | none => rw [hp] at h; exact absurd h (by simp)
        | some j₀ =>
          rw [hp] at h
          simp only [Option.map_some', Option.some_inj] at h
          subst h
          obtain ⟨t₀, r₀, d₀, hget, hscan₀, hbeats₀, hprops⟩ := ih bR bD j₀ hp
          have hwin : beats r₀ d₀ r d := beats_of_not_beats hb hbeats₀
          refine ⟨t₀, r₀, d₀, by simpa using hget, hscan₀, hbeats₀, ?_⟩
          intro j' t r' d' hget' hscan'
          cases j' with
          | zero =>
            rw [List.getElem?_cons_zero, Option.some_inj] at hget'
            subst hget'
            rw [hscan'] at hs
            injection hs with hs'
            injection hs' with h1 h2
            subst h1; subst h2
            exact ⟨beats_asymm hwin, fun _ => hwin⟩
          | succ k =>
            rw [List.getElem?_cons_succ] at hget'
            obtain ⟨hle, hlt⟩ := hprops k t r' d' hget' hscan'
            exact ⟨hle, fun hk => hlt (by omega)⟩

theorem pickFrom_exists :
    ∀ (rest : List Sheet) (bR bD : Nat),
      (∃ s ∈ rest, ∃ r d, scanSheet s = some (r, d) ∧ beats r d bR bD) →
      ∃ j, pickFrom bR bD rest = some j := by
  intro rest
  induction rest with
  | nil => intro bR bD ⟨s, hs, _⟩; simp at hs
  | cons s rest ih =>
    intro bR bD ⟨t, ht, r, d, hscan, hbeats⟩
    cases hs : scanSheet s with
    | none =>
      rw [pickFrom_cons_none rest bR bD hs]
      rcases List.mem_cons.mp ht with rfl | ht'
      · rw [hscan] at hs; exact absurd hs (by simp)
      · obtain ⟨j, hj⟩ := ih bR bD ⟨t, ht', r, d, hscan, hbeats⟩
        exact ⟨j + 1, by rw [hj]; rfl⟩
    | some rd =>
      obtain ⟨r₀, d₀⟩ := rd
      by_cases hb : beats r₀ d₀ bR bD
      · rw [pickFrom_cons_beats rest bR bD hs hb]
        cases hp : pickFrom r₀ d₀ rest with
        | none => exact ⟨0, rfl⟩
        | some j => exact ⟨j + 1, rfl⟩
      · rw [pickFrom_cons_nobeats rest bR bD hs hb]
        rcases List.mem_cons.mp ht with rfl | ht'
        · rw [hscan] at hs
          injection hs with hs'
          injection hs' with h1 h2
          subst h1; subst h2
          exact absurd hbeats hb
        · obtain ⟨j, hj⟩ := ih bR bD ⟨t, ht', r, d, hscan, hbeats⟩
          exact ⟨j + 1, by rw [hj]; rfl⟩

/-! ### Claim theorems -/

/-- C5, counterexample: `normalize_base` is **not** idempotent — it strips one
extension per application, so `"a.b.c"` maps to `"a.b"`, which maps again to
`"a"`. -/
theorem normalize_base_not_idempotent :
    normBaseStr (normBaseStr "a.b.c") ≠ normBaseStr "a.b.c" := by decide

/-- C5 (amended): `normalize` is idempotent; `normalize_base` is invariant
under prior normalization (`normalize_base (normalize x) = normalize_base x`)
but not idempotent, since it strips one extension per application; `normalize`
is case- and whitespace-insensitive, e.g.
`normalize "Foo  Bar.pdf" = normalize "foo bar.pdf"`; both functions are total
and deterministic, mapping `None` to `""`. -/
theorem normalizer_algebra :
    (∀ s : String, normStr (normStr s) = normStr s) ∧
    (∀ s : String, normBaseStr (normStr s) = normBaseStr s) ∧
    normStr "Foo  Bar.pdf" = normStr "foo bar.pdf" ∧
    normalize_name none = "" ∧ normalize_base none = "" :=
  ⟨normStr_idem, normBase_normStr, by decide, rfl, rfl⟩

/-- C9, counterexample: the credential is built from `Encoding.ASCII.GetBytes`,
not UTF-8 — for `client_id = "é"` the ASCII encoding substitutes `?` and the
credential differs from base64 of the UTF-8 bytes. -/
theorem basic_auth_not_utf8 :
    basic_auth "é" "x" ≠ String.mk (base64_encode (utf8Bytes ("é" ++ ":" ++ "x"))) := by
  decide

theorem ascii_utf8_list :
    ∀ cs : List Char, (∀ c ∈ cs, c.toNat ≤ 127) →
      cs.map (fun c => if c.toNat ≤ 127 then c.toNat else 63) = (cs.map utf8Char).flatten := by
  intro cs
  induction cs with
  | nil => intro _; rfl
  | cons c cs ih =>
    intro h
    have hc := h c (List.mem_cons_self _ _)
    rw [List.map_cons, List.map_cons, List.flatten_cons]
    rw [show utf8Char c = [c.toNat] by unfold utf8Char; rw [if_pos (by omega)]]
    rw [if_pos hc, ih (fun x hx => h x (List.mem_cons_of_mem _ hx))]
    rfl

theorem asciiBytes_eq_utf8Bytes {s : String} (h : ∀ c ∈ s.data, c.toNat ≤ 127) :
    asciiBytes s = utf8Bytes s :=
  ascii_utf8_list s.data h

/-- C9 (amended): the HTTP Basic credential equals the base64 encoding of the
**ASCII** bytes of `client_id + ":" + client_secret` (non-ASCII code points
replaced by `?`); this agrees with the claimed UTF-8 form exactly when the
credential string is pure ASCII. -/
theorem basic_auth_ascii_base64 (client_id client_secret : String)
    (h : ∀ c ∈ (client_id ++ ":" ++ client_secret).data, c.toNat ≤ 127) :
    basic_auth client_id client_secret =
      String.mk (base64_encode (utf8Bytes (client_id ++ ":" ++ client_secret))) := by
  unfold basic_auth
  rw [asciiBytes_eq_utf8Bytes h]

theorem basic_auth_ascii_base64_check :
    (∀ c ∈ ("abc" ++ ":" ++ "xyz").data, c.toNat ≤ 127) ∧
      basic_auth "abc" "xyz" =
        String.mk (base64_encode (utf8Bytes ("abc" ++ ":" ++ "xyz"))) :=
  ⟨by decide, basic_auth_ascii_base64 "abc" "xyz" (by decide)⟩

/-- C6, counterexample: a callback whose `state` differs from the generated
one but which carries an `error` parameter fails with the provider error, not
with the state-mismatch error — the `error` check runs first
(script.py:486-491). -/
theorem authenticate_error_precedes_state :
    (some "T" ≠ some "S") ∧
      authenticate "S" (some (Callback.mk none (some "T") (some "access_denied"))) =
        AuthOutcome.providerError "access_denied" ∧
      authenticate "S" (some (Callback.mk none (some "T") (some "access_denied"))) ≠
        AuthOutcome.stateMismatch :=
  ⟨by decide, rfl, by decide⟩

/-- C6 (amended): no callback within the timeout fails with the timeout error;
for a callback that arrives the checks run in source order — a truthy `error`
parameter fails with the provider error first; otherwise a missing (or empty)
`code` fails with the missing-code error; otherwise a `state` differing from
the generated anti-forgery value fails with the state-mismatch error; only a
callback with no error, a code, and the matching state proceeds to the token
exchange. -/
theorem authenticate_outcomes (state : String) (cb : Option Callback) :
    (cb = none → authenticate state cb = AuthOutcome.timeout) ∧
    (∀ c, cb = some c → qtruthy c.error = true →
      authenticate state cb = AuthOutcome.providerError (c.error.getD "")) ∧
    (∀ c, cb = some c → qtruthy c.error = false → qtruthy c.code = false →
      authenticate state cb = AuthOutcome.codeMissing) ∧
    (∀ c, cb = some c → qtruthy c.error = false → qtruthy c.code = true →
      c.state ≠ some state → authenticate state cb = AuthOutcome.stateMismatch) ∧
    (∀ c, cb = some c → qtruthy c.error = false → qtruthy c.code = true →
      c.state = some state → authenticate state cb = AuthOutcome.exchange (c.code.getD "")) := by
  refine ⟨?_, ?_, ?_, ?_, ?_⟩
  · intro h; subst h; rfl
  · intro c h he; subst h; simp [authenticate, he]
  · intro c h he hc; subst h; simp [authenticate, he, hc]
  · intro c h he hc hs; subst h; simp [authenticate, he, hc, hs]
  · intro c h he hc hs; subst h; simp [authenticate, he, hc, hs]

theorem authenticate_outcomes_check :
    authenticate "S" (some (Callback.mk (some "authcode") (some "T") none)) =
      AuthOutcome.stateMismatch :=
  (authenticate_outcomes "S" (some (Callback.mk (some "authcode") (some "T") none))).2.2.2.1
    (Callback.mk (some "authcode") (some "T") none) rfl (by decide) (by decide) (by decide)

/-- C8, counterexample: an unreadable workbook does **not** degrade to an
empty index — `read_excel` wraps the body in `try`/`finally` with no handler,
so a failure to open the workbook propagates as an exception to the caller. -/
theorem read_excel_raises_on_open_failure :
    read_excel none = Except.error "workbook open failed" := rfl

/-- C8 (amended): once the workbook is open, per-sheet scan failures are
swallowed: when no sheet is selectable (every sheet unreadable, degenerate, or
without countable rows) `read_excel` returns the empty index together with the
initial diagnostics rather than raising; a failure to launch Excel or open the
workbook, by contrast, propagates to the caller. -/
theorem read_excel_degrades_on_sheet_failure (sheets : List Sheet)
    (h : selectIdx sheets = none) :
    read_excel (some sheets) = Except.ok ([], initDiag) := by
  simp only [read_excel, h]

theorem read_excel_degrades_check :
    selectIdx [unreadableSheet] = none ∧
      read_excel (some [unreadableSheet]) = Except.ok ([], initDiag) :=
  ⟨rfl, read_excel_degrades_on_sheet_failure [unreadableSheet] rfl⟩

/-- C4, counterexample: the data row whose file name is the left-to-right mark
(U+200E) is accepted (its cell is non-blank to `strip`), but both its
canonical keys normalize to `""`, which `_add_result` silently drops — the row
is registered under neither key, so the index stays empty. -/
theorem rowindex_unregistered_row :
    sheetRows lrmSheet = [("‎", "desc")] ∧
      normStr "‎" = "" ∧ normBaseStr "‎" = "" ∧
      buildIndex (sheetRows lrmSheet) = [] := by
  refine ⟨by decide, by decide, by decide, by decide⟩

/-- C4 (amended): looking any non-empty key up in the built index returns the
earliest accepted row one of whose canonical keys (`normalize(file_name)`,
`normalize_base(file_name)`) equals it — so a row is registered under both its
canonical keys when they are non-empty, the first registration wins on any key
collision, later duplicates are silently ignored, and a key that normalizes to
the empty string is never registered. -/
theorem rowindex_first_registration_wins (rows : List (String × String)) (k : String) :
    lookupIdx (buildIndex rows) k =
      (if k = "" then none
       else (rows.find? (fun nd => normStr nd.1 = k || normBaseStr nd.1 = k)).map
         (fun nd => ExcelRow.mk nd.1 nd.2)) :=
  lookup_buildIndex rows k

/-- C3: for every workbook with at least one non-degenerate sheet (a sheet
that scans and has a countable row), the selection settles on a scanned sheet
whose `(desc_rows, rows)` score no other scanned sheet beats — i.e. its
`desc_rows` is greatest and, among equal `desc_rows`, its `rows` is greatest —
and which strictly beats every sheet scanned before it, so the earliest sheet
wins all ties; the selected sheet is never degenerate. -/
theorem sheet_selection_argmax (sheets : List Sheet)
    (h : ∃ s ∈ sheets, ¬degenerateSheet s) :
    ∃ i s r d, selectIdx sheets = some i ∧ sheets[i]? = some s ∧
      scanSheet s = some (r, d) ∧ ¬degenerateSheet s ∧
      (∀ j t r' d', sheets[j]? = some t → scanSheet t = some (r', d') →
        ¬beats r' d' r d ∧ (j < i → beats r d r' d')) := by
  obtain ⟨s, hs, hnd⟩ := h
  have hex : ∃ r d, scanSheet s = some (r, d) ∧ beats r d 0 0 := by
    unfold degenerateSheet at hnd
    push_neg at hnd
    obtain ⟨h1, h2⟩ := hnd
    cases hsc : scanSheet s with
    | none => exact absurd hsc h1
    | some rd =>
      obtain ⟨r, d⟩ := rd
      refine ⟨r, d, rfl, ?_⟩
      rw [beats_zero_iff]
      intro hc
      apply h2
      rw [hsc, hc.1, hc.2]
  obtain ⟨r₁, d₁, hscan₁, hb₁⟩ := hex
  obtain ⟨j, hj⟩ := pickFrom_exists sheets 0 0 ⟨s, hs, r₁, d₁, hscan₁, hb₁⟩
  obtain ⟨t₀, r₀, d₀, hget, hscan₀, hbeats₀, hprops⟩ := pickFrom_some sheets 0 0 j hj
  refine ⟨j, t₀, r₀, d₀, ?_, hget, hscan₀, ?_, hprops⟩
  · unfold selectIdx
    rw [selectGo_eq_pickFrom, hj]
    simp
  · unfold degenerateSheet
    rw [hscan₀]
    rw [beats_zero_iff] at hbeats₀
    intro hcon
    rcases hcon with hcon | hcon
    · exact Option.noConfusion hcon
    · injection hcon with hcon'
      injection hcon' with e1 e2
      exact hbeats₀ ⟨e1, e2⟩

theorem sheet_selection_argmax_check :
    (∃ s ∈ wbExample, ¬degenerateSheet s) ∧
      (∃ i s r d, selectIdx wbExample = some i ∧ wbExample[i]? = some s ∧
        scanSheet s = some (r, d) ∧ ¬degenerateSheet s ∧
        (∀ j t r' d', wbExample[j]? = some t → scanSheet t = some (r', d') →
          ¬beats r' d' r d ∧ (j < i → beats r d r' d'))) :=
  ⟨⟨sheetBig, List.Mem.tail _ (List.Mem.tail _ (List.Mem.tail _ (List.Mem.head _))),
      by decide⟩,
    sheet_selection_argmax wbExample
      ⟨sheetBig, List.Mem.tail _ (List.Mem.tail _ (List.Mem.tail _ (List.Mem.head _))),
        by decide⟩⟩

theorem parse_entry_acc (fo : List FolderNode) (fi : List FileItem) (item : Json) :
    parse_entry (fo, fi) item =
      (fo ++ (parse_entry ([], []) item).1, fi ++ (parse_entry ([], []) item).2) := by
  unfold parse_entry
  by_cases h1 : lowerStr (jgetStr item "type") = "folders"
  · simp [h1]
  · by_cases h2 : lowerStr (jgetStr item "type") = "items"
    · simp [h1, h2]
    · simp [h1, h2]

theorem parse_fold_acc :
    ∀ (items : List Json) (fo : List FolderNode) (fi : List FileItem),
      items.foldl parse_entry (fo, fi) =
        (fo ++ (items.foldl parse_entry ([], [])).1,
         fi ++ (items.foldl parse_entry ([], [])).2) := by
  intro items
  induction items with
  | nil => intro fo fi; simp
  | cons item rest ih =>
    intro fo fi
    rcases hp : parse_entry ([], []) item with ⟨X, Y⟩
    have h1 : parse_entry (fo, fi) item = (fo ++ X, fi ++ Y) := by
      rw [parse_entry_acc fo fi item, hp]
    rw [List.foldl_cons, List.foldl_cons, h1, hp, ih (fo ++ X) (fi ++ Y), ih X Y]
    simp

theorem parse_folder_contents_acc (root : Json) (fo : List FolderNode) (fi : List FileItem) :
    parse_folder_contents root fo fi =
      (fo ++ (parse_folder_contents root [] []).1, fi ++ (parse_folder_contents root [] []).2) := by
  unfold parse_folder_contents
  exact parse_fold_acc (dataList root) fo fi

theorem files_loop_chain (store : String → Json) :
    ∀ (u : String) (urls : List String) (pages : List Json),
      Chain store u urls pages →
      ∀ fuel, urls.length ≤ fuel →
      ∀ (folders : List FolderNode) (files : List FileItem) (visited : List String),
        files_loop store fuel (some u) folders files visited =
          some (folders ++ pages.flatMap (fun p => (parse_folder_contents p [] []).1),
                files ++ pages.flatMap (fun p => (parse_folder_contents p [] []).2),
                visited ++ urls) := by
  intro u urls pages hchain
  induction hchain with
  | last u p hstore hnext =>
    intro fuel hfuel folders files visited
    cases fuel with
    | zero => simp at hfuel
    | succ f =>
      show files_loop store (f + 1) (some u) folders files visited = _
      simp only [files_loop, hstore, hnext]
      rw [show parse_folder_contents p folders files =
          (folders ++ (parse_folder_contents p [] []).1,
           files ++ (parse_folder_contents p [] []).2) from parse_folder_contents_acc p folders files]
      simp [files_loop]
  | step u u' p urls pages hstore hnext hch ih =>
    intro fuel hfuel folders files visited
    cases fuel with
    | zero => simp at hfuel
    | succ f =>
      show files_loop store (f + 1) (some u) folders files visited = _
      simp only [files_loop, hstore, hnext]
      rw [show parse_folder_contents p folders files =
          (folders ++ (parse_folder_contents p [] []).1,
           files ++ (parse_folder_contents p [] []).2) from parse_folder_contents_acc p folders files]
      rw [ih f (by simpa using hfuel)]
      simp

theorem chain_unique {store : String → Json} {u : String} {urls : List String}
    {pages : List Json} (h1 : Chain store u urls pages) :
    ∀ {urls' pages'}, Chain store u urls' pages' → urls = urls' ∧ pages = pages' := by
  induction h1 with
  | last u p hstore hnext =>
    intro urls' pages' h2
    cases h2 with
    | last _ p₂ h2s h2n =>
      have hp : p₂ = p := by rw [← h2s, hstore]
      exact ⟨rfl, by rw [hp]⟩
    | step _ u₂ p₂ urls₂ pages₂ h2s h2n _ =>
      have hp : p₂ = p := by rw [← h2s, hstore]
      rw [hp, hnext] at h2n
      exact Option.noConfusion h2n
  | step u u' p urls pages hstore hnext hch ih =>
    intro urls' pages' h2
    cases h2 with
    | last _ p₂ h2s h2n =>
      have hp : p₂ = p := by rw [← h2s, hstore]
      rw [hp, hnext] at h2n
      exact Option.noConfusion h2n
    | step _ u₂ p₂ urls₂ pages₂ h2s h2n h2c =>
      have hp : p₂ = p := by rw [← h2s, hstore]
      rw [hp, hnext] at h2n
      injection h2n with h2n'
      subst h2n'
      obtain ⟨e1, e2⟩ := ih h2c
      exact ⟨by rw [e1], by rw [e2, hp]⟩

theorem chain_length_eq {store : String → Json} {u : String} {urls : List String}
    {pages : List Json} (h : Chain store u urls pages) : urls.length = pages.length := by
  induction h with
  | last _ _ _ _ => rfl
  | step _ _ _ _ _ _ _ _ ih => simpa using ih

theorem chain_suffix_of_mem {store : String → Json} :
    ∀ {w : String} {urls : List String} {pages : List Json},
      Chain store w urls pages → ∀ {x}, x ∈ urls →
        ∃ urls' pages', Chain store x urls' pages' ∧ urls'.length ≤ urls.length := by
  intro w urls pages h
  induction h with
  | last u p hstore hnext =>
    intro x hx
    rw [List.mem_singleton] at hx
    subst hx
    exact ⟨[x], [p], Chain.last x p hstore hnext, le_refl _⟩
  | step u u' p urls pages hstore hnext hch ih =>
    intro x hx
    rcases List.mem_cons.mp hx with rfl | hx'
    · exact ⟨x :: urls, p :: pages, Chain.step x u' p urls pages hstore hnext hch, le_refl _⟩
    · obtain ⟨urls', pages', hc, hlen⟩ := ih hx'
      exact ⟨urls', pages', hc, by simpa using Nat.le_succ_of_le hlen⟩

theorem chain_nodup {store : String → Json} :
    ∀ {u : String} {urls : List String} {pages : List Json},
      Chain store u urls pages → urls.Nodup := by
  intro u urls pages h
  induction h with
  | last _ _ _ _ => simp
  | step u u' p urls pages hstore hnext hch ih =>
    refine List.nodup_cons.mpr ⟨?_, ih⟩
    intro hmem
    obtain ⟨urls₂, pages₂, hch₂, hlen⟩ := chain_suffix_of_mem hch hmem
    have hfull : Chain store u (u :: urls) (p :: pages) :=
      Chain.step u u' p urls pages hstore hnext hch
    have heq := (chain_unique hfull hch₂).1
    have : (u :: urls).length = urls₂.length := by rw [heq]
    simp at this
    omega

/-- C7: for every terminating `next`-link chain, the pagination loop (given
fuel at least the page count — the loop itself assumes no bound) returns the
concatenation of all pages' parsed file entries in page order and fetches
exactly the chain's URLs, in order, each exactly once; the loop stops exactly
when a page has no `next` link. -/
theorem pagination_follows_next_links (store : String → Json) (u : String)
    (urls : List String) (pages : List Json) (fuel : Nat)
    (hchain : Chain store u urls pages) (hfuel : urls.length ≤ fuel) :
    get_files_in_folder store fuel u =
      some (pages.flatMap (fun p => (parse_folder_contents p [] []).2), urls) ∧
    urls.Nodup := by
  constructor
  · unfold get_files_in_folder
    rw [files_loop_chain store u urls pages hchain fuel hfuel [] [] []]
    simp
  · exact chain_nodup hchain

theorem pagination_follows_next_links_check :
    get_files_in_folder store3 3 "u1" =
      some ([FileItem.mk "i1" "A.dwg" "" "items:autodesk.bim360:File" true,
             FileItem.mk "i2" "B.dwg" "" "items:autodesk.bim360:File" true,
             FileItem.mk "i3" "C.dwg" "" "items:autodesk.bim360:File" true],
            ["u1", "u2", "u3"]) ∧
      ["u1", "u2", "u3"].Nodup := by
  have h := pagination_follows_next_links store3 "u1" ["u1", "u2", "u3"]
    [page1, page2, page3] 3
    (Chain.step "u1" "u2" page1 ["u2", "u3"] [page2, page3] rfl rfl
      (Chain.step "u2" "u3" page2 ["u3"] [page3] rfl rfl
        (Chain.last "u3" page3 rfl rfl)))
    (by decide)
  simpa using h

theorem item_step_missingId {rows detail update} {it : FileItem} (h : it.Id = "") :
    item_step rows detail update it = ⟨Outcome.missingId, none, [], it.Description⟩ := by
  simp [item_step, h]

theorem item_step_noRow {rows detail update} {it : FileItem} (h : ¬ it.Id = "")
    (hm : matched_row rows it.DisplayName = none) :
    item_step rows detail update it = ⟨Outcome.noMatchingRow, none, [], it.Description⟩ := by
  simp [item_step, h, hm]

theorem item_step_emptyDesc {rows detail update} {it : FileItem} {row : ExcelRow}
    (h : ¬ it.Id = "") (hm : matched_row rows it.DisplayName = some row)
    (hd : row.Description = "") :
    item_step rows detail update it = ⟨Outcome.emptyDescription, none, [], it.Description⟩ := by
  simp [item_step, h, hm, hd]

theorem item_step_c4r {rows detail update} {it : FileItem} {row : ExcelRow}
    (h : ¬ it.Id = "") (hm : matched_row rows it.DisplayName = some row)
    (hd : ¬ row.Description = "")
    (hext : it.ExtensionType = "items:autodesk.bim360:C4RModel") :
    item_step rows detail update it =
      ⟨Outcome.unsupportedType, fetch_error (detail it.Id), [], it.Description⟩ := by
  simp [item_step, h, hm, hd, hext]

theorem item_step_noTip {rows detail update} {it : FileItem} {row : ExcelRow}
    (h : ¬ it.Id = "") (hm : matched_row rows it.DisplayName = some row)
    (hd : ¬ row.Description = "")
    (hext : ¬ it.ExtensionType = "items:autodesk.bim360:C4RModel")
    (htip : fetch_tip (detail it.Id) = none) :
    item_step rows detail update it =
      ⟨Outcome.missingTip, fetch_error (detail it.Id), [], it.Description⟩ := by
  simp [item_step, h, hm, hd, hext, htip]

theorem item_step_emptyTip {rows detail update} {it : FileItem} {row : ExcelRow}
    (h : ¬ it.Id = "") (hm : matched_row rows it.DisplayName = some row)
    (hd : ¬ row.Description = "")
    (hext : ¬ it.ExtensionType = "items:autodesk.bim360:C4RModel")
    (htip : fetch_tip (detail it.Id) = some "") :
    item_step rows detail update it =
      ⟨Outcome.missingTip, fetch_error (detail it.Id), [], it.Description⟩ := by
  simp [item_step, h, hm, hd, hext, htip]

theorem item_step_updated {rows detail update} {it : FileItem} {row : ExcelRow} {t : String}
    (h : ¬ it.Id = "") (hm : matched_row rows it.DisplayName = some row)
    (hd : ¬ row.Description = "")
    (hext : ¬ it.ExtensionType = "items:autodesk.bim360:C4RModel")
    (htip : fetch_tip (detail it.Id) = some t) (ht : ¬ t = "")
    (hup : update t row.Description = Except.ok ()) :
    item_step rows detail update it =
      ⟨Outcome.updated, fetch_error (detail it.Id), [(t, row.Description)],
        row.Description⟩ := by
  simp [item_step, h, hm, hd, hext, htip, ht, hup]

theorem item_step_updateFailed {rows detail update} {it : FileItem} {row : ExcelRow}
    {t e : String}
    (h : ¬ it.Id = "") (hm : matched_row rows it.DisplayName = some row)
    (hd : ¬ row.Description = "")
    (hext : ¬ it.ExtensionType = "items:autodesk.bim360:C4RModel")
    (htip : fetch_tip (detail it.Id) = some t) (ht : ¬ t = "")
    (hup : update t row.Description = Except.error e) :
    item_step rows detail update it =
      ⟨Outcome.updateFailed e, fetch_error (detail it.Id), [(t, row.Description)],
        it.Description⟩ := by
  simp [item_step, h, hm, hd, hext, htip, ht, hup]

theorem on_apply_fold (rows : List (String × ExcelRow))
    (detail : String → Except String (Option String))
    (update : String → String → Except String Unit) :
    ∀ (items : List FileItem) (acc : PassResult),
      items.foldl (fun acc it =>
        let r := item_step rows detail update it
        { updatedCount := acc.updatedCount + (if r.outcome = Outcome.updated then 1 else 0),
          skippedCount := acc.skippedCount + (if isSkip r.outcome then 1 else 0),
          results := acc.results ++ [r] }) acc =
      { updatedCount := acc.updatedCount +
          (items.map (item_step rows detail update)).countP
            (fun r => r.outcome = Outcome.updated),
        skippedCount := acc.skippedCount +
          (items.map (item_step rows detail update)).countP (fun r => isSkip r.outcome),
        results := acc.results ++ items.map (item_step rows detail update) } := by
  intro items
  induction items with
  | nil => intro acc; simp
  | cons it items ih =>
    intro acc
    rw [List.foldl_cons, ih]
    simp only [List.map_cons, List.countP_cons, List.append_assoc, List.singleton_append]
    congr 1
    · by_cases hA : (item_step rows detail update it).outcome = Outcome.updated <;>
        simp [hA] <;> omega
    · by_cases hA : isSkip (item_step rows detail update it).outcome = true <;>
        simp [hA] <;> omega

theorem on_apply_spec (rows : List (String × ExcelRow))
    (detail : String → Except String (Option String))
    (update : String → String → Except String Unit) (items : List FileItem) :
    on_apply_descriptions rows detail update items =
      { updatedCount := (items.map (item_step rows detail update)).countP
          (fun r => r.outcome = Outcome.updated),
        skippedCount := (items.map (item_step rows detail update)).countP
          (fun r => isSkip r.outcome),
        results := items.map (item_step rows detail update) } := by
  unfold on_apply_descriptions
  rw [on_apply_fold]
  simp

/-- C1: per item of a reconciliation pass — an item with an empty remote id is
skipped as missing-id; the row is looked up under `normalize(display_name)`
and, only when that misses, under `normalize_base(display_name)`; a double
miss skips the item as no-matching-row; a matched row with an empty
description skips it as empty-description; and no skipped item ever has an
update call issued. -/
theorem reconcile_skip_rules (rows : List (String × ExcelRow))
    (detail : String → Except String (Option String))
    (update : String → String → Except String Unit) (it : FileItem) :
    (it.Id = "" →
      item_step rows detail update it = ⟨Outcome.missingId, none, [], it.Description⟩) ∧
    (∀ r, lookupIdx rows (normStr it.DisplayName) = some r →
      matched_row rows it.DisplayName = some r) ∧
    (lookupIdx rows (normStr it.DisplayName) = none →
      matched_row rows it.DisplayName = lookupIdx rows (normBaseStr it.DisplayName)) ∧
    (it.Id ≠ "" → matched_row rows it.DisplayName = none →
      item_step rows detail update it = ⟨Outcome.noMatchingRow, none, [], it.Description⟩) ∧
    (∀ r, it.Id ≠ "" → matched_row rows it.DisplayName = some r → r.Description = "" →
      item_step rows detail update it =
        ⟨Outcome.emptyDescription, none, [], it.Description⟩) ∧
    (isSkip (item_step rows detail update it).outcome = true →
      (item_step rows detail update it).updateCalls = []) := by
  refine ⟨?_, ?_, ?_, ?_, ?_, ?_⟩
  · exact item_step_missingId
  · intro r hr
    unfold matched_row
    rw [hr]
  · intro hr
    unfold matched_row
    rw [hr]
  · exact item_step_noRow
  · intro r h hm hd
    exact item_step_emptyDesc h hm hd
  · intro hsk
    by_cases hid : it.Id = ""
    · rw [item_step_missingId hid]
    · cases hm : matched_row rows it.DisplayName with
      | none => rw [item_step_noRow hid hm]
      | some row =>
        by_cases hd : row.Description = ""
        · rw [item_step_emptyDesc hid hm hd]
        · by_cases hext : it.ExtensionType = "items:autodesk.bim360:C4RModel"
          · rw [item_step_c4r hid hm hd hext]
          · cases htip : fetch_tip (detail it.Id) with
            | none => rw [item_step_noTip hid hm hd hext htip]
            | some t =>
              by_cases ht : t = ""
              · subst ht
                rw [item_step_emptyTip hid hm hd hext htip]
              · cases hup : update t row.Description with
                | ok u =>
                  rw [item_step_updated hid hm hd hext htip ht (by cases u; exact hup)] at hsk
                  simp [isSkip] at hsk
                | error e =>
                  rw [item_step_updateFailed hid hm hd hext htip ht hup] at hsk
                  simp [isSkip] at hsk

theorem reconcile_skip_rules_check :
    item_step (buildIndex [("Plan-A1.dwg", "First floor plan")])
      (fun _ => Except.ok (some "v1")) (fun _ _ => Except.ok ())
      (FileItem.mk "" "Plan-A1.dwg" "old" "items:autodesk.bim360:File" true) =
      ⟨Outcome.missingId, none, [], "old"⟩ :=
  (reconcile_skip_rules (buildIndex [("Plan-A1.dwg", "First floor plan")])
    (fun _ => Except.ok (some "v1")) (fun _ _ => Except.ok ())
    (FileItem.mk "" "Plan-A1.dwg" "old" "items:autodesk.bim360:File" true)).1 rfl

/-- C2: the pass processes every item independently, in discovery order — its
audit trail is exactly the per-item results and the counters count them, so no
item's failure aborts the pass; a pre-update fetch failure is recorded against
the item (which then skips, issuing no update); a failed update is recorded
as that item's outcome with the in-memory description unchanged; a fully
matched item with a resolvable tip whose update succeeds issues exactly one
update call, has its in-memory description set to the row's description, and
contributes exactly one to the updated count wherever it sits in the list. -/
theorem reconcile_error_isolation (rows : List (String × ExcelRow))
    (detail : String → Except String (Option String))
    (update : String → String → Except String Unit) :
    (∀ items, (on_apply_descriptions rows detail update items).results =
      items.map (item_step rows detail update)) ∧
    (∀ items, (on_apply_descriptions rows detail update items).updatedCount =
      (items.map (item_step rows detail update)).countP
        (fun r => r.outcome = Outcome.updated)) ∧
    (∀ (it : FileItem) (r : ExcelRow) (e : String), it.Id ≠ "" →
      matched_row rows it.DisplayName = some r → r.Description ≠ "" →
      detail it.Id = Except.error e →
      (item_step rows detail update it).fetchError = some e ∧
      isSkip (item_step rows detail update it).outcome = true ∧
      (item_step rows detail update it).updateCalls = []) ∧
    (∀ (it : FileItem) (r : ExcelRow) (t e : String), it.Id ≠ "" →
      matched_row rows it.DisplayName = some r → r.Description ≠ "" →
      it.ExtensionType ≠ "items:autodesk.bim360:C4RModel" →
      detail it.Id = Except.ok (some t) → t ≠ "" →
      update t r.Description = Except.error e →
      item_step rows detail update it =
        ⟨Outcome.updateFailed e, none, [(t, r.Description)], it.Description⟩) ∧
    (∀ (it : FileItem) (r : ExcelRow) (t : String), it.Id ≠ "" →
      matched_row rows it.DisplayName = some r → r.Description ≠ "" →
      it.ExtensionType ≠ "items:autodesk.bim360:C4RModel" →
      detail it.Id = Except.ok (some t) → t ≠ "" →
      update t r.Description = Except.ok () →
      item_step rows detail update it =
        ⟨Outcome.updated, none, [(t, r.Description)], r.Description⟩) ∧
    (∀ (xs ys : List FileItem) (it : FileItem) (r : ExcelRow) (t : String), it.Id ≠ "" →
      matched_row rows it.DisplayName = some r → r.Description ≠ "" →
      it.ExtensionType ≠ "items:autodesk.bim360:C4RModel" →
      detail it.Id = Except.ok (some t) → t ≠ "" →
      update t r.Description = Except.ok () →
      (on_apply_descriptions rows detail update (xs ++ it :: ys)).updatedCount =
        (on_apply_descriptions rows detail update xs).updatedCount + 1 +
          (on_apply_descriptions rows detail update ys).updatedCount) := by
  refine ⟨?_, ?_, ?_, ?_, ?_, ?_⟩
  · intro items; rw [on_apply_spec]
  · intro items; rw [on_apply_spec]
  · intro it r e hid hm hd hfetch
    have herr : fetch_error (detail it.Id) = some e := by rw [hfetch]; rfl
    have htip : fetch_tip (detail it.Id) = none := by rw [hfetch]; rfl
    by_cases hext : it.ExtensionType = "items:autodesk.bim360:C4RModel"
    · rw [item_step_c4r hid hm hd hext, herr]
      exact ⟨rfl, rfl, rfl⟩
    · rw [item_step_noTip hid hm hd hext htip, herr]
      exact ⟨rfl, rfl, rfl⟩
  · intro it r t e hid hm hd hext hfetch ht hup
    have htip : fetch_tip (detail it.Id) = some t := by rw [hfetch]; rfl
    have herr : fetch_error (detail it.Id) = none := by rw [hfetch]; rfl
    rw [item_step_updateFailed hid hm hd hext htip ht hup, herr]
  · intro it r t hid hm hd hext hfetch ht hup
    have htip : fetch_tip (detail it.Id) = some t := by rw [hfetch]; rfl
    have herr : fetch_error (detail it.Id) = none := by rw [hfetch]; rfl
    rw [item_step_updated hid hm hd hext htip ht hup, herr]
  · intro xs ys it r t hid hm hd hext hfetch ht hup
    have htip : fetch_tip (detail it.Id) = some t := by rw [hfetch]; rfl
    have herr : fetch_error (detail it.Id) = none := by rw [hfetch]; rfl
    have hstep : item_step rows detail update it =
        ⟨Outcome.updated, none, [(t, r.Description)], r.Description⟩ := by
      rw [item_step_updated hid hm hd hext htip ht hup, herr]
    rw [on_apply_spec, on_apply_spec, on_apply_spec]
    simp only [List.map_append, List.map_cons, List.countP_append, List.countP_cons, hstep]
    simp
    omega

theorem reconcile_error_isolation_check :
    item_step (buildIndex [("Plan-A1.dwg", "First floor plan")])
      (fun _ => Except.ok (some "v1")) (fun _ _ => Except.ok ())
      (FileItem.mk "i1" "Plan-A1.dwg" "old" "items:autodesk.bim360:File" true) =
      ⟨Outcome.updated, none, [("v1", "First floor plan")], "First floor plan"⟩ :=
  (reconcile_error_isolation (buildIndex [("Plan-A1.dwg", "First floor plan")])
    (fun _ => Except.ok (some "v1")) (fun _ _ => Except.ok ())).2.2.2.2.1
    (FileItem.mk "i1" "Plan-A1.dwg" "old" "items:autodesk.bim360:File" true)
    (ExcelRow.mk "Plan-A1.dwg" "First floor plan") "v1"
    (by decide) (by decide) (by decide) (by decide) rfl (by decide) rfl

theorem parse_entry_folders {item : Json} (fo : List FolderNode) (fi : List FileItem)
    (h1 : lowerStr (jgetStr item "type") = "folders") :
    parse_entry (fo, fi) item =
      (fo ++ [FolderNode.mk (jgetStr item "id")
        (jgetStr (jgetObj item "attributes") "displayName")], fi) := by
  simp [parse_entry, h1]

theorem parse_entry_items {item : Json} (fo : List FolderNode) (fi : List FileItem)
    (h1 : ¬ lowerStr (jgetStr item "type") = "folders")
    (h2 : lowerStr (jgetStr item "type") = "items") :
    parse_entry (fo, fi) item =
      (fo, fi ++ [FileItem.mk (jgetStr item "id")
        (jgetStr (jgetObj item "attributes") "displayName")
        (jgetStr (jgetObj item "attributes") "description")
        (jgetStr (jgetObj (jgetObj item "attributes") "extension") "type") true]) := by
  simp [parse_entry, h1, h2]

theorem parse_entry_other {item : Json} (fo : List FolderNode) (fi : List FileItem)
    (h1 : ¬ lowerStr (jgetStr item "type") = "folders")
    (h2 : ¬ lowerStr (jgetStr item "type") = "items") :
    parse_entry (fo, fi) item = (fo, fi) := by
  simp [parse_entry, h1, h2]

theorem parse_files_flag :
    ∀ (items : List Json) (fo : List FolderNode) (fi : List FileItem),
      ∀ f ∈ (items.foldl parse_entry (fo, fi)).2, f ∈ fi ∨ f.CanUpdateDescription = true := by
  intro items
  induction items with
  | nil => intro fo fi f hf; exact Or.inl hf
  | cons item rest ih =>
    intro fo fi f hf
    rw [List.foldl_cons] at hf
    by_cases h1 : lowerStr (jgetStr item "type") = "folders"
    · rw [parse_entry_folders fo fi h1] at hf
      exact ih _ fi f hf
    · by_cases h2 : lowerStr (jgetStr item "type") = "items"
      · rw [parse_entry_items fo fi h1 h2] at hf
        rcases ih fo _ f hf with hf' | hflag
        · rcases List.mem_append.mp hf' with hf'' | hf''
          · exact Or.inl hf''
          · rw [List.mem_singleton] at hf''
            subst hf''
            exact Or.inr rfl
        · exact Or.inr hflag
      · rw [parse_entry_other fo fi h1 h2] at hf
        exact ih fo fi f hf

/-- C10 (implicit): every `FileItem` built while parsing folder contents has
its updatability flag set to `True` regardless of the entry's extension type;
the reconciliation loop never consults that flag (its result is invariant
under changing it); and, for an item that reaches the type check, the
unsupported-type skip is decided solely by string equality of the item's
extension type with `"items:autodesk.bim360:C4RModel"`. -/
theorem fileitem_updatability (root : Json) (folders : List FolderNode)
    (files : List FileItem) (rows : List (String × ExcelRow))
    (detail : String → Except String (Option String))
    (update : String → String → Except String Unit) (it : FileItem) (b : Bool) :
    (∀ f ∈ (parse_folder_contents root folders files).2,
      f ∈ files ∨ f.CanUpdateDescription = true) ∧
    (item_step rows detail update
        (FileItem.mk it.Id it.DisplayName it.Description it.ExtensionType b) =
      item_step rows detail update it) ∧
    (it.Id ≠ "" → ∀ r, matched_row rows it.DisplayName = some r → r.Description ≠ "" →
      ((item_step rows detail update it).outcome = Outcome.unsupportedType ↔
        it.ExtensionType = "items:autodesk.bim360:C4RModel")) := by
  refine ⟨?_, rfl, ?_⟩
  · intro f hf
    unfold parse_folder_contents at hf
    exact parse_files_flag (dataList root) folders files f hf
  · intro hid r hm hd
    constructor
    · intro hout
      by_contra hext
      cases htip : fetch_tip (detail it.Id) with
      | none => rw [item_step_noTip hid hm hd hext htip] at hout; exact Outcome.noConfusion hout
      | some t =>
        by_cases ht : t = ""
        · subst ht
          rw [item_step_emptyTip hid hm hd hext htip] at hout
          exact Outcome.noConfusion hout
        · cases hup : update t r.Description with
          | ok u =>
            rw [item_step_updated hid hm hd hext htip ht (by cases u; exact hup)] at hout
            exact Outcome.noConfusion hout
          | error e =>
            rw [item_step_updateFailed hid hm hd hext htip ht hup] at hout
            exact Outcome.noConfusion hout
    · intro hext
      rw [item_step_c4r hid hm hd hext]

theorem fileitem_updatability_check :
    (FileItem.mk "i1" "A.dwg" "" "items:autodesk.bim360:File" true ∈ ([] : List FileItem) ∨
      (FileItem.mk "i1" "A.dwg" "" "items:autodesk.bim360:File" true).CanUpdateDescription =
        true) ∧
      ((item_step (buildIndex [("Plan-A1.dwg", "First floor plan")])
          (fun _ => Except.ok (some "v1")) (fun _ _ => Except.ok ())
          (FileItem.mk "i1" "Plan-A1.dwg" "old" "items:autodesk.bim360:C4RModel" true)).outcome =
            Outcome.unsupportedType ↔
        (FileItem.mk "i1" "Plan-A1.dwg" "old"
          "items:autodesk.bim360:C4RModel" true).ExtensionType =
            "items:autodesk.bim360:C4RModel") :=
  ⟨(fileitem_updatability page1 [] []
      (buildIndex [("Plan-A1.dwg", "First floor plan")]) (fun _ => Except.ok (some "v1"))
      (fun _ _ => Except.ok ())
      (FileItem.mk "i1" "A.dwg" "" "items:autodesk.bim360:File" true) true).1
      (FileItem.mk "i1" "A.dwg" "" "items:autodesk.bim360:File" true) (by decide),
    (fileitem_updatability page1 [] []
      (buildIndex [("Plan-A1.dwg", "First floor plan")]) (fun _ => Except.ok (some "v1"))
      (fun _ _ => Except.ok ())
      (FileItem.mk "i1" "Plan-A1.dwg" "old" "items:autodesk.bim360:C4RModel" true) true).2.2
      (by decide) (ExcelRow.mk "Plan-A1.dwg" "First floor plan") (by decide) (by decide)⟩
